import Mathlib

/-!
Verification development for the Scraper-Practice product-matching pipeline.

The Python sources embedded here are `tools/advanced_product_matcher.py`
(text normalization, size extraction, the four-stage matching cascade,
matched-pair merging) and `tools/build_frontend_json.py` (the catalog
builder).  Strings are modelled as Lean `String`s (lists of Unicode code
points, as in CPython); the Unicode-specific step `unicodedata.normalize
("NFKD", s)` + combining-mark stripping + `str.lower()` is modelled on the
character set actually reachable in this program: ASCII plus the accented
characters appearing in its lookup tables (e-acute).  Regular expressions
are embedded as explicit scanning functions that reproduce `re.sub` /
`re.search` semantics (leftmost match, non-overlapping, replacements not
rescanned, `\b` word boundaries over `[A-Za-z0-9_]`, ordered alternation
with backtracking) for the concrete patterns appearing in the source.
Python floats are modelled as rationals; every numeric claim checked here
is far from any binary-rounding boundary, and the claims that mention
numeric tolerances have tolerances that dwarf double rounding error.
-/

namespace VSP

/-- ASCII lower-case letter test, `[a-z]`. -/
def isLowA (c : Char) : Bool := 97 ≤ c.toNat && c.toNat ≤ 122

/-- ASCII upper-case letter test, `[A-Z]`. -/
def isUpA (c : Char) : Bool := 65 ≤ c.toNat && c.toNat ≤ 90

/-- ASCII digit test, `[0-9]`. -/
def isDig (c : Char) : Bool := 48 ≤ c.toNat && c.toNat ≤ 57

/-- Character class `[a-z0-9]`, the class the tokenizer and the brand
normalizer keep. -/
def isAlnumL (c : Char) : Bool := isLowA c || isDig c

/-- Python regex word character `\w` on the ASCII fragment:
`[A-Za-z0-9_]`. -/
def isWordC (c : Char) : Bool := isLowA c || isUpA c || isDig c || c = '_'

/-- Python regex whitespace `\s` (ASCII fragment: space, tab, newline,
carriage return, vertical tab, form feed). -/
def isWs (c : Char) : Bool :=
  c = ' ' || c = '\t' || c = '\n' || c = '\r' || c.toNat = 11 || c.toNat = 12

/-- Plain `str.lower()` on the ASCII fragment. -/
def asciiLowerC (c : Char) : Char :=
  if isUpA c then Char.ofNat (c.toNat + 32) else c

/-- One character of `_strip_accents_lower`: NFKD-decompose, drop combining
marks, lower-case.  On ASCII this is `str.lower`; on the accented letters
reachable in this program (e-acute, from the brand alias table) it strips
the accent. -/
def stripCh (c : Char) : Char :=
  if c = 'é' || c = 'É' then 'e' else asciiLowerC c

/-- `_strip_accents_lower` on a character list. -/
def stripAccentsLowerL (l : List Char) : List Char := l.map stripCh

/-- `_strip_accents_lower(s)` (shared by both source files). -/
def _strip_accents_lower (s : String) : String := ⟨stripAccentsLowerL s.data⟩

/-- Word-character test lifted to the character left of the scan position
(`none` = start of string, which counts as non-word for `\b`). -/
def isWordOpt : Option Char → Bool
  | none => false
  | some c => isWordC c

/-- Generic model of `re.sub(pat, repl, s)` for a pattern matcher `m`.
`m prev c cs` inspects the character `prev` just left of the position (for
`\b`), the character `c` at the position and the tail `cs`; it returns
`some n` when the pattern matches consuming `c` plus `n` characters of
`cs`.  The scan is leftmost, non-overlapping, and replacements are not
rescanned, exactly as in `re.sub`.  The `Nat` argument is the number of
already-matched characters still to be skipped. -/
def subScan (m : Option Char → Char → List Char → Option Nat)
    (repl : List Char) : Option Char → Nat → List Char → List Char
  | _, _, [] => []
  | _, k+1, c :: cs => subScan m repl (some c) k cs
  | prev, 0, c :: cs =>
    match m prev c cs with
    | some n => repl ++ subScan m repl (some c) n cs
    | none => c :: subScan m repl (some c) 0 cs

/-- Run a substitution from the start of the string. -/
def runSub (m : Option Char → Char → List Char → Option Nat)
    (repl : List Char) (l : List Char) : List Char :=
  subScan m repl none 0 l

/-- Match a literal (case-sensitive) against a prefix of `l`; return the
rest on success. -/
def litRestCS : List Char → List Char → Option (List Char)
  | [], l => some l
  | _ :: _, [] => none
  | p :: ps, c :: cs => if c = p then litRestCS ps cs else none

/-- Match a literal of lower-case pattern characters against a prefix of
`l` under `re.IGNORECASE` (ASCII): the text character is lowered before
comparison. -/
def litRestCI : List Char → List Char → Option (List Char)
  | [], l => some l
  | _ :: _, [] => none
  | p :: ps, c :: cs => if asciiLowerC c = p then litRestCI ps cs else none

/-- Last character of a nonempty (c :: l) list. -/
def lastCh (c : Char) : List Char → Char
  | [] => c
  | d :: ds => lastCh d ds

/-- Matcher for `\b<literal>\b` (the synonym and brand-removal patterns).
`ci` selects `re.IGNORECASE`.  The leading boundary compares the word-ness
of `prev` with the first pattern character, the trailing boundary compares
the last pattern character with the following text character. -/
def mWordLit (ci : Bool) (lit : List Char) (prev : Option Char) (c : Char)
    (cs : List Char) : Option Nat :=
  match lit with
  | [] => none
  | p :: ps =>
    if isWordOpt prev == isWordC p then none
    else
      let hd := if ci then asciiLowerC c = p else c = p
      if hd then
        match (if ci then litRestCI ps cs else litRestCS ps cs) with
        | none => none
        | some rest =>
          if isWordC (lastCh p ps) == isWordOpt rest.head? then none
          else some ps.length
      else none

/-- Matcher for a plain (boundary-free) literal, as used by `str.replace`. -/
def mPlainLit (lit : List Char) (_prev : Option Char) (c : Char)
    (cs : List Char) : Option Nat :=
  match lit with
  | [] => none
  | p :: ps =>
    if c = p then
      match litRestCS ps cs with
      | none => none
      | some _ => some ps.length
    else none

/-- Python `s.replace(old, new)`: replace every occurrence, scanning left
to right, replacements not rescanned. -/
def replaceAll (old new : List Char) (l : List Char) : List Char :=
  runSub (mPlainLit old) new l

/-- Maximal run split: the list of maximal runs of characters satisfying
`p`, separators dropped.  `splitRuns isAlnumL` is `re.findall(r'[a-z0-9]+', s)`;
`splitRuns (fun c => !isWs c)` is the token split used to model
`re.sub(r'\s+', ' ', s).strip()`. -/
def splitRunsAux (p : Char → Bool) : List Char → List Char → List (List Char)
  | acc, [] => if acc.isEmpty then [] else [acc.reverse]
  | acc, c :: cs =>
    if p c then splitRunsAux p (c :: acc) cs
    else if acc.isEmpty then splitRunsAux p [] cs
    else acc.reverse :: splitRunsAux p [] cs

def splitRuns (p : Char → Bool) (l : List Char) : List (List Char) :=
  splitRunsAux p [] l

/-- Join tokens with single spaces (`" ".join(tokens)`). -/
def joinSp : List (List Char) → List Char
  | [] => []
  | [t] => t
  | t :: ts => t ++ ' ' :: joinSp ts

/-- Python string comparison: lexicographic on code points, a proper
prefix is smaller.  This is the order `list.sort()` uses on `str`. -/
def lexLeB : List Char → List Char → Bool
  | [], _ => true
  | _ :: _, [] => false
  | a :: as, b :: bs =>
    if a.toNat < b.toNat then true
    else if b.toNat < a.toNat then false
    else lexLeB as bs

/-- The sorting relation on tokens. -/
def TokLe (a b : List Char) : Prop := lexLeB a b = true

instance : DecidableRel TokLe := fun a b => by
  unfold TokLe; infer_instance

theorem lexLeB_total (a b : List Char) : lexLeB a b = true ∨ lexLeB b a = true := by
  induction a generalizing b with
  | nil => left; rfl
  | cons x xs ih =>
    cases b with
    | nil => right; rfl
    | cons y ys =>
      by_cases h1 : x.toNat < y.toNat
      · left; simp [lexLeB, h1]
      · by_cases h2 : y.toNat < x.toNat
        · right; simp [lexLeB, h2]
        · have := ih ys
          rcases this with h | h
          · left; simp [lexLeB, h1, h2, h]
          · right; simp [lexLeB, h1, h2, h]

instance : IsTotal (List Char) TokLe :=
  ⟨fun a b => lexLeB_total a b⟩

theorem lexLeB_trans {a b c : List Char} (h1 : lexLeB a b = true)
    (h2 : lexLeB b c = true) : lexLeB a c = true := by
  induction a generalizing b c with
  | nil => rfl
  | cons x xs ih =>
    cases b with
    | nil => simp [lexLeB] at h1
    | cons y ys =>
      cases c with
      | nil => simp [lexLeB] at h2
      | cons z zs =>
        simp only [lexLeB] at h1 h2 ⊢
        rcases Nat.lt_trichotomy x.toNat y.toNat with hxy | hxy | hxy
        · rcases Nat.lt_trichotomy y.toNat z.toNat with hyz | hyz | hyz
          · simp [Nat.lt_trans hxy hyz]
          · simp [hyz ▸ hxy]
          · rcases Nat.lt_trichotomy y.toNat z.toNat with h | h | h <;>
              simp [Nat.lt_asymm hyz, Nat.lt_irrefl, hyz] at h2
        · rcases Nat.lt_trichotomy y.toNat z.toNat with hyz | hyz | hyz
          · simp [hxy ▸ hyz]
          · have hxz : x.toNat = z.toNat := hxy.trans hyz
            have h1' : lexLeB xs ys = true := by
              simpa [hxy, Nat.lt_irrefl] using h1
            have h2' : lexLeB ys zs = true := by
              simpa [hyz, Nat.lt_irrefl] using h2
            simp [hxz, Nat.lt_irrefl]
            exact ih h1' h2'
          · simp [Nat.lt_asymm hyz, hyz] at h2
        · simp [Nat.lt_asymm hxy, hxy] at h1

instance : IsTrans (List Char) TokLe :=
  ⟨fun _ _ _ h1 h2 => lexLeB_trans h1 h2⟩

theorem lexLeB_antisymm : ∀ {a b : List Char}, lexLeB a b = true →
    lexLeB b a = true → a = b := by
  intro a
  induction a with
  | nil =>
    intro b _ h2
    cases b with
    | nil => rfl
    | cons y ys => simp [lexLeB] at h2
  | cons x xs ih =>
    intro b h1 h2
    cases b with
    | nil => simp [lexLeB] at h1
    | cons y ys =>
      simp only [lexLeB] at h1 h2
      rcases Nat.lt_trichotomy x.toNat y.toNat with hxy | hxy | hxy
      · simp [Nat.lt_asymm hxy, hxy] at h2
      · have h1' : lexLeB xs ys = true := by
          simpa [hxy, Nat.lt_irrefl] using h1
        have h2' : lexLeB ys xs = true := by
          simpa [hxy, Nat.lt_irrefl] using h2
        have hx : x = y := Char.ext (UInt32.ext hxy)
        rw [hx, ih h1' h2']
      · simp [Nat.lt_asymm hxy, hxy] at h1

instance : IsAntisymm (List Char) TokLe :=
  ⟨fun _ _ h1 h2 => lexLeB_antisymm h1 h2⟩

/-- Python `list.sort()` on strings: a stable sort by `lexLeB`.  For a
total preorder a stable sort result is unique, so Mathlib's insertion sort
models it exactly. -/
def sortToks (l : List (List Char)) : List (List Char) :=
  List.insertionSort TokLe l

/-- `s.split()` on single spaces: the space-separated tokens of a string
(used to state properties of normalized output). -/
def spaceTokens (s : String) : List String :=
  (splitRuns (fun c => !(c = ' ')) s.data).map (fun l => (⟨l⟩ : String))

/-- Python `str` ordering lifted to Lean strings. -/
def StrLe (a b : String) : Prop := TokLe a.data b.data

/-! ## Tables of `advanced_product_matcher.py` -/

/-- `MIN_TITLE_LENGTH` from the matcher configuration. -/
def MIN_TITLE_LENGTH : Nat := 5

/-- `BRAND_ALIASES` in source (dict) order: canonical name paired with its
known spelling variants. -/
def BRAND_ALIASES : List (String × List String) :=
  [("milk2go", ["milk2go", "milk 2 go", "milk2 go", "milk to go"]),
   ("pc", ["presidents choice", "president\x27s choice", "pc"]),
   ("no name", ["no name", "noname", "nn"]),
   ("great value", ["great value", "greatvalue", "gv"]),
   ("neilson", ["neilson", "nielson"]),
   ("dairyland", ["dairyland", "dairy land"]),
   ("natrel", ["natrel", "na trel"]),
   ("beatrice", ["beatrice"]),
   ("lactantia", ["lactantia"]),
   ("hersheys", ["hershey\x27s", "hersheys", "hershey"]),
   ("cadbury", ["cadbury"]),
   ("nestle", ["nestle", "nestlé"]),
   ("kraft", ["kraft"]),
   ("kelloggs", ["kellogg\x27s", "kelloggs"])]

/-- `WORD_SYNONYMS` of the matcher, already arranged in the order
`sorted(WORD_SYNONYMS.items(), key=lambda x: -len(x[0]))` produces
(longest pattern first, dict insertion order breaking ties), which is the
order `_apply_word_synonyms` applies them in. -/
def WORD_SYNONYMS_SORTED : List (String × String) :=
  [("partly skimmed", "lowfat"), ("part skimmed", "lowfat"),
   ("homogenized", "wholefat"), ("whole milk", "wholefat"),
   ("part skim", "lowfat"), ("chocolat", "chocolate"),
   ("low fat", "lowfat"), ("skimmed", "nonfat"), ("non fat", "nonfat"),
   ("lowfat", "lowfat"), ("nonfat", "nonfat"), ("strawb", "strawberry"),
   ("whole", "wholefat"), ("cocoa", "chocolate"), ("straw", "strawberry"),
   ("vanil", "vanilla"), ("homo", "wholefat"), ("skim", "nonfat"),
   ("choc", "chocolate"), ("van", "vanilla")]

/-- `STOPWORDS` of the matcher. -/
def STOPWORDS : List String :=
  ["and", "the", "of", "for", "in", "to", "a", "an", "with", "by", "or",
   "from", "on", "at", "is", "are", "was", "were", "be", "been", "being"]

/-! ## Normalization functions of `advanced_product_matcher.py` -/

/-- `_normalize_brand(brand)`: casefold, strip non-`[a-z0-9]`, resolve
against the alias table (each alias normalized the same way), unknown
brands pass through. -/
def _normalize_brand (brand : String) : String :=
  if brand = "" then ""
  else
    let s := (stripAccentsLowerL brand.data).filter isAlnumL
    let aliasNorm : String → List Char := fun a =>
      (stripAccentsLowerL a.data).filter isAlnumL
    match BRAND_ALIASES.find? (fun ca => (ca.2.map aliasNorm).contains s) with
    | some ca => ca.1
    | none => ⟨s⟩

/-- `_apply_word_synonyms(text)`: each synonym replaced with
`re.sub(r'\b' + key + r'\b', repl, text, flags=re.IGNORECASE)`, longest
key first. -/
def _apply_word_synonyms (l : List Char) : List Char :=
  WORD_SYNONYMS_SORTED.foldl
    (fun s kr => runSub (mWordLit true kr.1.data) kr.2.data s) l

/-- Matcher for `\b3\.25%` (case-sensitive, no trailing boundary). -/
def mPct325 (prev : Option Char) (c : Char) (cs : List Char) : Option Nat :=
  if isWordOpt prev then none
  else if c = '3' then
    match litRestCS ".25%".data cs with
    | some _ => some 4
    | none => none
  else none

/-- Matcher for `\b3\.25\s*%`. -/
def mPct325ws (prev : Option Char) (c : Char) (cs : List Char) : Option Nat :=
  if isWordOpt prev then none
  else if c = '3' then
    match litRestCS ".25".data cs with
    | some rest =>
      let n := (rest.takeWhile isWs).length
      match rest.drop n with
      | '%' :: _ => some (3 + n + 1)
      | _ => none
    | none => none
  else none

/-- Matcher for `\b<digit>%` (used with digits 0, 1, 2). -/
def mPctDigit (d : Char) (prev : Option Char) (c : Char) (cs : List Char) :
    Option Nat :=
  if isWordOpt prev then none
  else if c = d then
    match cs with
    | '%' :: _ => some 1
    | _ => none
  else none

/-- `_normalize_milk_percentage(text)`: the five `re.sub` passes in source
order. -/
def _normalize_milk_percentage (l : List Char) : List Char :=
  let l := runSub mPct325 "threepointtwentyfivepercent".data l
  let l := runSub mPct325ws "threepointtwentyfivepercent".data l
  let l := runSub (mPctDigit '0') "zeropercentmilk".data l
  let l := runSub (mPctDigit '1') "onepercentmilk".data l
  runSub (mPctDigit '2') "twopercentmilk".data l

/-- `_denormalize_milk_percentage(text)`: four `str.replace` passes. -/
def _denormalize_milk_percentage (l : List Char) : List Char :=
  let l := replaceAll "threepointtwentyfivepercent".data "wholefat".data l
  let l := replaceAll "zeropercentmilk".data "nonfat".data l
  let l := replaceAll "onepercentmilk".data "lowfat1".data l
  replaceAll "twopercentmilk".data "lowfat2".data l

/-! Size-pattern matchers.  Each models one regex of
`_remove_size_tokens` / `_extract_size_info` with `re` semantics: greedy
`\d+` and `(?:\.\d+)?` and `\s*` (greediness is sound here because no
continuation of these subpatterns can start with a digit, a dot-digit or
whitespace), and ordered alternation where an alternative succeeds only if
the rest of the pattern (`s?`, trailing `\b`) succeeds after it. -/

/-- Length of the maximal digit prefix. -/
def digRunLen : List Char → Nat
  | [] => 0
  | c :: cs => if isDig c then digRunLen cs + 1 else 0

/-- Length of the maximal whitespace prefix. -/
def wsRunLen : List Char → Nat
  | [] => 0
  | c :: cs => if isWs c then wsRunLen cs + 1 else 0

/-- Length consumed by `(?:\.\d+)?`: a dot followed by at least one digit,
or nothing. -/
def optFracLen (l : List Char) : Nat :=
  match l with
  | '.' :: rest =>
    let d := digRunLen rest
    if d = 0 then 0 else d + 1
  | _ => 0

/-- Try one unit alternative `alt` (lower-case literal) at `l`; `ci`
selects `re.IGNORECASE`; `sOpt` allows a greedy optional trailing `s`;
`needB` requires a trailing `\b`.  Returns consumed length. -/
def tryAlt (ci : Bool) (alt : List Char) (sOpt needB : Bool) (l : List Char) :
    Option Nat :=
  match (if ci then litRestCI alt l else litRestCS alt l) with
  | none => none
  | some rest =>
    let fin : List Char → Nat → Option Nat := fun rest' len =>
      if needB then
        if isWordOpt rest'.head? then none else some len
      else some len
    if sOpt then
      match rest with
      | c :: rest' =>
        if (if ci then asciiLowerC c = 's' else c = 's') then
          match fin rest' (alt.length + 1) with
          | some n => some n
          | none => fin rest alt.length
        else fin rest alt.length
      | [] => fin rest alt.length
    else fin rest alt.length

/-- Ordered alternation over unit alternatives: first alternative whose
full continuation succeeds wins, as in Python backtracking. -/
def tryAlts (ci : Bool) (alts : List (List Char)) (sOpt needB : Bool)
    (l : List Char) : Option Nat :=
  match alts with
  | [] => none
  | a :: rest =>
    match tryAlt ci a sOpt needB l with
    | some n => some n
    | none => tryAlts ci rest sOpt needB l

/-- Like `tryAlts` but also returns the alternative that matched (the
regex capture group, which excludes the optional `s`). -/
def tryAltsCap (ci : Bool) (alts : List (List Char)) (sOpt needB : Bool)
    (l : List Char) : Option (List Char × Nat) :=
  match alts with
  | [] => none
  | a :: rest =>
    match tryAlt ci a sOpt needB l with
    | some n => some (a, n)
    | none => tryAltsCap ci rest sOpt needB l

/-- Matcher for removal pattern 1,
`\b\d+(?:\.\d+)?\s*(?:ml|l|litre|litres|liter|liters)\b`. -/
def mSize1 (prev : Option Char) (c : Char) (cs : List Char) : Option Nat :=
  if isWordOpt prev then none
  else if isDig c then
    let d := digRunLen cs
    let rest1 := cs.drop d
    let f := optFracLen rest1
    let rest2 := rest1.drop f
    let w := wsRunLen rest2
    let rest3 := rest2.drop w
    match tryAlts true ["ml".data, "l".data, "litre".data, "litres".data,
        "liter".data, "liters".data] false true rest3 with
    | some u => some (d + f + w + u)
    | none => none
  else none

/-- Matcher for removal pattern 2,
`\b\d+(?:\.\d+)?\s*(?:g|grams?|kg|kilograms?|oz|ounces?|lb|lbs|pounds?)\b`.
The embedded `s?` of each alternative is expanded in backtracking order. -/
def mSize2 (prev : Option Char) (c : Char) (cs : List Char) : Option Nat :=
  if isWordOpt prev then none
  else if isDig c then
    let d := digRunLen cs
    let rest1 := cs.drop d
    let f := optFracLen rest1
    let rest2 := rest1.drop f
    let w := wsRunLen rest2
    let rest3 := rest2.drop w
    match tryAlts true ["g".data, "grams".data, "gram".data, "kg".data,
        "kilograms".data, "kilogram".data, "oz".data, "ounces".data,
        "ounce".data, "lb".data, "lbs".data, "pounds".data,
        "pound".data] false true rest3 with
    | some u => some (d + f + w + u)
    | none => none
  else none

/-- Matcher for removal pattern 3,
`\b\d+\s*[x×]\s*\d+(?:\.\d+)?\s*(?:ml|l|g|kg|oz|lb)s?\b`. -/
def mSize3 (prev : Option Char) (c : Char) (cs : List Char) : Option Nat :=
  if isWordOpt prev then none
  else if isDig c then
    let d := digRunLen cs
    let rest1 := cs.drop d
    let w1 := wsRunLen rest1
    match rest1.drop w1 with
    | x :: rest2 =>
      if x = 'x' || x = 'X' || x = '×' then
        let w2 := wsRunLen rest2
        let rest3 := rest2.drop w2
        let d2 := digRunLen rest3
        if d2 = 0 then none
        else
          let rest4 := rest3.drop d2
          let f := optFracLen rest4
          let rest5 := rest4.drop f
          let w3 := wsRunLen rest5
          let rest6 := rest5.drop w3
          match tryAlts true ["ml".data, "l".data, "g".data, "kg".data,
              "oz".data, "lb".data] true true rest6 with
          | some u => some (d + w1 + 1 + w2 + d2 + f + w3 + u)
          | none => none
      else none
    | [] => none
  else none

/-- Matcher for removal pattern 4,
`\b\d+\s*(?:pack|pk|count|ct|case|bottle|bottles|can|cans)\b`. -/
def mSize4 (prev : Option Char) (c : Char) (cs : List Char) : Option Nat :=
  if isWordOpt prev then none
  else if isDig c then
    let d := digRunLen cs
    let rest1 := cs.drop d
    let w := wsRunLen rest1
    let rest2 := rest1.drop w
    match tryAlts true ["pack".data, "pk".data, "count".data, "ct".data,
        "case".data, "bottle".data, "bottles".data, "can".data,
        "cans".data] false true rest2 with
    | some u => some (d + w + u)
    | none => none
  else none

/-- Matcher for removal pattern 5,
`\b\d+(?:\.\d+)?\s*(?:fl\s*oz|fluid\s*ounce)\b`. -/
def mSize5 (prev : Option Char) (c : Char) (cs : List Char) : Option Nat :=
  if isWordOpt prev then none
  else if isDig c then
    let d := digRunLen cs
    let rest1 := cs.drop d
    let f := optFracLen rest1
    let rest2 := rest1.drop f
    let w := wsRunLen rest2
    let rest3 := rest2.drop w
    let alt1 : Option Nat :=
      match litRestCI "fl".data rest3 with
      | none => none
      | some r1 =>
        let w2 := wsRunLen r1
        match litRestCI "oz".data (r1.drop w2) with
        | none => none
        | some r2 =>
          if isWordOpt r2.head? then none else some (2 + w2 + 2)
    let alt2 : Option Nat :=
      match litRestCI "fluid".data rest3 with
      | none => none
      | some r1 =>
        let w2 := wsRunLen r1
        match litRestCI "ounce".data (r1.drop w2) with
        | none => none
        | some r2 =>
          if isWordOpt r2.head? then none else some (5 + w2 + 5)
    match alt1 with
    | some u => some (d + f + w + u)
    | none =>
      match alt2 with
      | some u => some (d + f + w + u)
      | none => none
  else none

/-- Matcher for removal pattern 6,
`\$\d+(?:\.\d+)?/\d+(?:ml|l|g|kg)` (no word boundaries, no `s?`). -/
def mSize6 (_prev : Option Char) (c : Char) (cs : List Char) : Option Nat :=
  if c = '$' then
    let d := digRunLen cs
    if d = 0 then none
    else
      let rest1 := cs.drop d
      let f := optFracLen rest1
      match rest1.drop f with
      | '/' :: rest2 =>
        let d2 := digRunLen rest2
        if d2 = 0 then none
        else
          match tryAlts true ["ml".data, "l".data, "g".data, "kg".data]
              false false (rest2.drop d2) with
          | some u => some (d + f + 1 + d2 + u)
          | none => none
      | _ => none
  else none

/-- Collapse whitespace runs to single spaces and strip the ends:
`re.sub(r'\s+', ' ', s).strip()`. -/
def wsCollapse (l : List Char) : List Char :=
  joinSp (splitRuns (fun c => !isWs c) l)

/-- `_remove_size_tokens(text)`: the six `re.sub` passes in source order,
then whitespace collapsing. -/
def _remove_size_tokens (l : List Char) : List Char :=
  let l := runSub mSize1 [' '] l
  let l := runSub mSize2 [' '] l
  let l := runSub mSize3 [' '] l
  let l := runSub mSize4 [' '] l
  let l := runSub mSize5 [' '] l
  let l := runSub mSize6 [' '] l
  wsCollapse l

/-- Length of the maximal prefix of characters matched by
`[^a-z0-9\s]`. -/
def punctRunLen : List Char → Nat
  | [] => 0
  | c :: cs => if isAlnumL c || isWs c then 0 else punctRunLen cs + 1

/-- Matcher for `[^a-z0-9\s]+`. -/
def mPunct (_prev : Option Char) (c : Char) (cs : List Char) : Option Nat :=
  if isAlnumL c || isWs c then none else some (punctRunLen cs)

/-- `re.sub(r'[^a-z0-9\s]+', ' ', s)`. -/
def punctToSpace (l : List Char) : List Char := runSub mPunct [' '] l

/-- Python `str.isdigit()` on the ASCII fragment: nonempty and all
digits. -/
def isDigitStr (l : List Char) : Bool := !l.isEmpty && l.all isDig

/-- The token filter of `normalize_title_for_matching`: drop stopwords,
single-character tokens and pure-numeric tokens. -/
def keepTok (t : List Char) : Bool :=
  !(STOPWORDS.map String.data).contains t && t.length > 1 && !isDigitStr t

/-- Brand-removal passes of `normalize_title_for_matching`: the brand as
lowered literal, as normalized brand, and with non-alphanumerics stripped,
each removed with `re.sub(r'\b…\b', ' ', s)` (case-sensitive: no
IGNORECASE flag on these subs). -/
def removeBrand (brand : String) (l : List Char) : List Char :=
  let bLow := stripAccentsLowerL brand.data
  let l := runSub (mWordLit false bLow) [' '] l
  let bNorm := _normalize_brand brand
  let l := if bNorm ≠ "" then runSub (mWordLit false bNorm.data) [' '] l else l
  let bNospace := bLow.filter isAlnumL
  if bNospace ≠ [] then runSub (mWordLit false bNospace) [' '] l else l

/-- The character-rewriting pipeline of `normalize_title_for_matching`
before tokenization: casefold, protect milk percentages, remove the
brand, apply synonyms, strip size tokens, restore milk percentages,
strip remaining non-alphanumerics. -/
def titleCorePre (title brand : String) : List Char :=
  punctToSpace (_denormalize_milk_percentage (_remove_size_tokens
    (_apply_word_synonyms
      (if brand ≠ "" then
        removeBrand brand (_normalize_milk_percentage (stripAccentsLowerL title.data))
      else _normalize_milk_percentage (stripAccentsLowerL title.data)))))

/-- The kept tokens of `normalize_title_for_matching`. -/
def titleToks (title brand : String) : List (List Char) :=
  (splitRuns isAlnumL (titleCorePre title brand)).filter keepTok

/-- `normalize_title_for_matching(title, brand)` from
`advanced_product_matcher.py`. -/
def normalize_title_for_matching (title brand : String) : String :=
  if title = "" || title.length < MIN_TITLE_LENGTH then ""
  else if (titleToks title brand).isEmpty then ""
  else ⟨joinSp (sortToks (titleToks title brand))⟩

/-! ## Size extraction (`_extract_size_info`) -/

/-- Numeric value of a digit list (most significant first). -/
def natOfDigits (l : List Char) : Nat :=
  l.foldl (fun acc c => acc * 10 + (c.toNat - 48)) 0

/-- Python `float()` of a captured `\d+(?:\.\d+)?` group, exactly (the
claims that depend on sizes carry tolerances far above double rounding
error, so the rational value is a faithful model). -/
def decOfParts (ip : List Char) (fp : List Char) : ℚ :=
  (natOfDigits ip : ℚ) + (if fp.isEmpty then 0 else (natOfDigits fp : ℚ) / (10 : ℚ) ^ fp.length)

/-- Generic `re.search` position scan (patterns with no left context). -/
def searchL (m : Char → List Char → Option α) : List Char → Option α
  | [] => none
  | c :: cs =>
    match m c cs with
    | some r => some r
    | none => searchL m cs

/-- Matcher at one position for the multi-pack pattern of
`_extract_size_info`, `(\d+)\s*[x×]\s*(\d+(?:\.\d+)?)\s*(ml|l|g|kg|oz|lb)s?\b`
(searched without `re.IGNORECASE`; the text is already lower-cased).
Returns the three captured groups: count, the each-size capture split
into integer and fractional digits, and the unit. -/
def mExMulti (c : Char) (cs : List Char) :
    Option (Nat × (List Char × List Char) × String) :=
  if isDig c then
    let d := digRunLen cs
    let rest1 := cs.drop d
    let w1 := wsRunLen rest1
    match rest1.drop w1 with
    | x :: rest2 =>
      if x = 'x' || x = '×' then
        let w2 := wsRunLen rest2
        let rest3 := rest2.drop w2
        let d2 := digRunLen rest3
        if d2 = 0 then none
        else
          let ip := rest3.take d2
          let rest4 := rest3.drop d2
          let f := optFracLen rest4
          let fp := if f = 0 then [] else (rest4.drop 1).take (f - 1)
          let rest5 := rest4.drop f
          let w3 := wsRunLen rest5
          let rest6 := rest5.drop w3
          match tryAltsCap false ["ml".data, "l".data, "g".data, "kg".data,
              "oz".data, "lb".data] true true rest6 with
          | some (u, _) => some (natOfDigits (c :: cs.take d), (ip, fp), ⟨u⟩)
          | none => none
      else none
    | [] => none
  else none

/-- Matcher at one position for the single-size pattern of
`_extract_size_info`,
`(\d+(?:\.\d+)?)\s*(ml|l|litre|litres|g|kg|gram|grams|oz|lb)s?\b`.
Returns the captured size (integer and fractional digits) and unit. -/
def mExSingle (c : Char) (cs : List Char) :
    Option ((List Char × List Char) × String) :=
  if isDig c then
    let d := digRunLen cs
    let ip := c :: cs.take d
    let rest1 := cs.drop d
    let f := optFracLen rest1
    let fp := if f = 0 then [] else (rest1.drop 1).take (f - 1)
    let rest2 := rest1.drop f
    let w := wsRunLen rest2
    let rest3 := rest2.drop w
    match tryAltsCap false ["ml".data, "l".data, "litre".data,
        "litres".data, "g".data, "kg".data, "gram".data, "grams".data,
        "oz".data, "lb".data] true true rest3 with
    | some (u, _) => some ((ip, fp), ⟨u⟩)
    | none => none
  else none

/-- The size/unit pair produced by `_extract_size_info`. -/
abbrev SizeInfo := Option ℚ × Option String

/-- Unit conversion for the multi-pack branch (source if/elif chain). -/
def convMulti (total : ℚ) (u : String) : SizeInfo :=
  if u = "ml" then (some (total / 1000), some "l")
  else if u = "l" then (some total, some "l")
  else if u = "g" then (some (total / 1000), some "kg")
  else if u = "kg" then (some total, some "kg")
  else if u = "oz" then (some (total * (295735 / 10000000 : ℚ)), some "l")
  else if u = "lb" then (some (total * (453592 / 1000000 : ℚ)), some "kg")
  else (none, none)

/-- Unit conversion for the single-size branch (source if/elif chain). -/
def convSingle (v : ℚ) (u : String) : SizeInfo :=
  if u = "ml" then (some (v / 1000), some "l")
  else if u = "l" || u = "litre" || u = "litres" then (some v, some "l")
  else if u = "g" || u = "gram" || u = "grams" then (some (v / 1000), some "kg")
  else if u = "kg" then (some v, some "kg")
  else if u = "oz" then (some (v * (295735 / 10000000 : ℚ)), some "l")
  else if u = "lb" then (some (v * (453592 / 1000000 : ℚ)), some "kg")
  else (none, none)

/-- `_extract_size_info(text)`: multi-pack pattern searched first, then
the single pattern; unmatched text gives `(None, None)`. -/
def _extract_size_info (text : String) : SizeInfo :=
  if text = "" then (none, none)
  else
    match searchL mExMulti (stripAccentsLowerL text.data) with
    | some (cnt, parts, u) =>
      convMulti ((cnt : ℚ) * decOfParts parts.1 parts.2) u
    | none =>
      match searchL mExSingle (stripAccentsLowerL text.data) with
      | some (parts, u) => convSingle (decOfParts parts.1 parts.2) u
      | none => (none, none)

/-! ## Listings and price parsing -/

/-- One scraped listing, with the fields the matcher and the catalog
builder read.  Every field is optional, mirroring `dict.get`: `none` is an
absent key.  `price_numeric` is modelled as an already-numeric value
(rational, standing for the JSON number), the other price fields as raw
strings.  The `store` field is the tag `load_jsonl` writes. -/
structure Product where
  brand : Option String := none
  title : Option String := none
  product_name : Option String := none
  package_sizing : Option String := none
  search_query : Option String := none
  description : Option String := none
  short_description : Option String := none
  image_url : Option String := none
  link : Option String := none
  product_url : Option String := none
  product_id : Option String := none
  item_id : Option String := none
  article_number : Option String := none
  price : Option String := none
  price_raw : Option String := none
  price_numeric : Option ℚ := none
  inventory_status : Option String := none
  availability : Option String := none
  badge : Option String := none
  offer_type : Option String := none
  is_sponsored : Option Bool := none
  review_count : Option ℚ := none
  avg_rating : Option ℚ := none
  store : Option String := none
deriving DecidableEq

/-- Python `a or b` on optional strings: `b` when `a` is absent or empty. -/
def pyOrS : Option String → Option String → Option String
  | some s, b => if s = "" then b else some s
  | none, b => b

/-- Python `opt.get(...) or default` for strings. -/
def orStr (a : Option String) (d : String) : String :=
  match a with
  | some s => if s = "" then d else s
  | none => d

/-- Python `str.strip()` (whitespace at both ends). -/
def pyStrip (l : List Char) : List Char :=
  ((l.dropWhile isWs).reverse.dropWhile isWs).reverse

/-- Python `float()` on the decimal fragment (optional sign, digits with
an optional decimal point; exponents, inf/nan and surrounding whitespace
beyond what `strip` removed are outside the modelled fragment). -/
def parseFloatQ (l : List Char) : Option ℚ :=
  let core : List Char → Option ℚ := fun l =>
    let d1 := digRunLen l
    let ip := l.take d1
    match l.drop d1 with
    | [] => if d1 = 0 then none else some (decOfParts ip [])
    | '.' :: r2 =>
      let d2 := digRunLen r2
      let fp := r2.take d2
      if ¬ r2.drop d2 = [] then none
      else if d1 = 0 && d2 = 0 then none
      else some (decOfParts ip fp)
    | _ => none
  match l with
  | '-' :: rest => (core rest).map (fun q => -q)
  | '+' :: rest => core rest
  | _ => core l

/-- `parse_price(obj)` from `advanced_product_matcher.py`: prefer the
numeric `price_numeric` field, else parse `price_raw or price` with `$`
and `,` stripped; unparseable gives `None`. -/
def parse_price (p : Product) : Option ℚ :=
  match p.price_numeric with
  | some v => some v
  | none =>
    match pyOrS p.price_raw p.price with
    | some s =>
      if s = "" then none
      else
        let cleaned := replaceAll [','] [] (replaceAll ['$'] [] (pyStrip s.data))
        parseFloatQ cleaned
    | none => none

/-- The match key of the exact stage, `create_match_key(product)`:
`(normalized brand, normalized title, size info)` where the size is
extracted from the title and `package_sizing` combined. -/
def create_match_key (p : Product) : String × String × SizeInfo :=
  let brand := orStr p.brand ""
  let title := orStr p.title (orStr p.product_name "")
  let normBrand := _normalize_brand brand
  let normTitle := normalize_title_for_matching title brand
  let combined := title ++ " " ++ (p.package_sizing.getD "")
  (normBrand, normTitle, _extract_size_info combined)

/-! ## The four-stage matching cascade -/

/-- One match candidate `(wm_idx, ss_idx, confidence, method)`. -/
structure MT where
  wi : Nat
  si : Nat
  conf : String
  meth : String
deriving DecidableEq

/-- Key of the exact stage. -/
abbrev MKey := String × String × SizeInfo

/-- `defaultdict(list)` appending: extend the list under `k` (dict
insertion order preserved), or add the key at the end. -/
def assocApp [DecidableEq κ] (k : κ) (v : α) :
    List (κ × List α) → List (κ × List α)
  | [] => [(k, [v])]
  | (k', vs) :: rest =>
    if k' = k then (k', vs ++ [v]) :: rest else (k', vs) :: assocApp k v rest

/-- Dict lookup. -/
def assocGet [DecidableEq κ] (k : κ) (m : List (κ × List α)) : Option (List α) :=
  (m.find? (fun kv => decide (kv.1 = k))).map (·.2)

/-- Replace the stored list under an existing key (models the in-place
`list.extend` aliasing in `fuzzy_match`). -/
def assocSet [DecidableEq κ] (k : κ) (v : List α) :
    List (κ × List α) → List (κ × List α)
  | [] => []
  | (k', vs) :: rest =>
    if k' = k then (k', v) :: rest else (k', vs) :: assocSet k v rest

/-- State of one cascade stage: produced matches, matched walmart
indices, matched superstore indices. -/
abbrev StageRes := List MT × List Nat × List Nat

/-- Superstore index of `exact_match`: key → listing indices, for
listings having both a brand and a title. -/
def exactIndex (ss : List Product) : List (MKey × List Nat) :=
  ss.enum.foldl
    (fun acc ip =>
      let k := create_match_key ip.2
      if k.1 ≠ "" && k.2.1 ≠ "" then assocApp k ip.1 acc else acc) []

/-- One walmart listing of the exact scan: claim the first unconsumed
superstore listing under the same full key. -/
def exactStep (idx : List (MKey × List Nat)) (st : StageRes)
    (ip : Nat × Product) : StageRes :=
  if (create_match_key ip.2).1 = "" || (create_match_key ip.2).2.1 = "" then st
  else
    match assocGet (create_match_key ip.2) idx with
    | none => st
    | some lst =>
      match lst.find? (fun si => !st.2.2.contains si) with
      | none => st
      | some si =>
        (st.1 ++ [⟨ip.1, si, "high", "exact_brand_title_size"⟩],
         st.2.1 ++ [ip.1], st.2.2 ++ [si])

/-- `exact_match(walmart_products, superstore_products)`. -/
def exact_match (wm ss : List Product) : StageRes :=
  wm.enum.foldl (exactStep (exactIndex ss)) ([], [], [])

/-- The normalized brand stages 2 and 3 compute,
`_normalize_brand(product.get("brand") or "")`. -/
def btBrand (p : Product) : String := _normalize_brand (orStr p.brand "")

/-- The normalized title stages 2 and 3 compute (with the
`product_name` fallback). -/
def btTitle (p : Product) : String :=
  normalize_title_for_matching (orStr p.title (orStr p.product_name ""))
    (orStr p.brand "")

/-- Superstore index of `brand_title_match` (size dropped from the key),
over listings not already consumed. -/
def btIndex (ss : List Product) (ssM : List Nat) :
    List ((String × String) × List Nat) :=
  ss.enum.foldl
    (fun acc ip =>
      if ssM.contains ip.1 then acc
      else
        let b := btBrand ip.2
        let t := btTitle ip.2
        if b ≠ "" && t ≠ "" then assocApp (b, t) ip.1 acc else acc) []

/-- One walmart listing of the relaxed scan. -/
def btStep (idx : List ((String × String) × List Nat)) (wmM ssM : List Nat)
    (st : StageRes) (ip : Nat × Product) : StageRes :=
  if wmM.contains ip.1 then st
  else
    if btBrand ip.2 = "" || btTitle ip.2 = "" then st
    else
      match assocGet (btBrand ip.2, btTitle ip.2) idx with
      | none => st
      | some lst =>
        match lst.find? (fun si => !ssM.contains si && !st.2.2.contains si) with
        | none => st
        | some si =>
          (st.1 ++ [⟨ip.1, si, "medium", "brand_title_different_size"⟩],
           st.2.1 ++ [ip.1], st.2.2 ++ [si])

/-- `brand_title_match(...)`: stage 2, over listings unmatched so far. -/
def brand_title_match (wm ss : List Product) (wmM ssM : List Nat) : StageRes :=
  wm.enum.foldl (btStep (btIndex ss ssM) wmM ssM) ([], [], [])

/-! Stage 3, `fuzzy_match`.  The string-similarity function
(`difflib.SequenceMatcher.ratio`, wrapped by `fuzzy_similarity`) is a pure
function of its two arguments; it is abstracted here as an explicit
parameter `sim`, and every theorem about the cascade is proved for all
values of that parameter.  Note the source's `candidates.extend(...)`
mutates the list stored in the `ss_by_brand` dict in place, so the stored
bucket grows; the model threads the updated dict through the fold. -/

/-- Digit characters of a natural number, most significant first. -/
def natDigitsAux : Nat → Nat → List Char
  | 0, _ => []
  | fuel+1, n =>
    if n < 10 then [Char.ofNat (48 + n)]
    else natDigitsAux fuel (n / 10) ++ [Char.ofNat (48 + n % 10)]

def natToStr (n : Nat) : String := ⟨natDigitsAux (n + 1) n⟩

/-- Python `f"{x:.2f}"` for the nonnegative scores the cascade formats:
two fixed decimals, ties (which cannot be hit by the concrete claims
checked here) rounded up. -/
def fmt2 (q : ℚ) : String :=
  let n := (⌊q * 100 + 1 / 2⌋).toNat
  natToStr (n / 100) ++ "." ++
    (if n % 100 < 10 then "0" else "") ++ natToStr (n % 100)

/-- The cheap length pre-filter of `fuzzy_match`:
`abs(len(a) - len(b)) > max(len(a), len(b)) * 0.5` (exact in floats, since
`max * 0.5` is a halved integer; equivalently `2*|la-lb| > max`). -/
def lenFilterSkip (a b : String) : Bool :=
  2 * (if a.length ≥ b.length then a.length - b.length
       else b.length - a.length) > max a.length b.length

/-- Brand buckets and brandless pool of `fuzzy_match`, over unmatched
superstore listings with a nonempty normalized title. -/
def fuzzyIndexes (ss : List Product) (ssM : List Nat) :
    List (String × List (Nat × String)) × List (Nat × String) :=
  (ss.enum.filter (fun ip => !ssM.contains ip.1)).foldl
    (fun acc ip =>
      let b := btBrand ip.2
      let t := btTitle ip.2
      if t = "" then acc
      else if b ≠ "" then (assocApp b (ip.1, t) acc.1, acc.2)
      else (acc.1, acc.2 ++ [(ip.1, t)])) ([], [])

/-- Candidate scan of one walmart listing: track the best-scoring
candidate at or above the 0.85 threshold, breaking early at 0.98. -/
def fuzzyBest (sim : String → String → ℚ) (wmT : String) (ssM ns : List Nat) :
    List (Nat × String) → Option Nat × ℚ → Option Nat × ℚ
  | [], best => best
  | (si, st) :: rest, best =>
    if ssM.contains si || ns.contains si then fuzzyBest sim wmT ssM ns rest best
    else if lenFilterSkip wmT st then fuzzyBest sim wmT ssM ns rest best
    else
      if (85 / 100 : ℚ) ≤ sim wmT st ∧ best.2 < sim wmT st then
        if (98 / 100 : ℚ) ≤ sim wmT st then (some si, sim wmT st)
        else fuzzyBest sim wmT ssM ns rest (some si, sim wmT st)
      else fuzzyBest sim wmT ssM ns rest best

/-- State of the fuzzy fold: the (mutable) brand dict, then matches and
newly matched index lists. -/
abbrev FzSt := List (String × List (Nat × String)) × List MT × List Nat × List Nat

/-- One walmart listing of the fuzzy scan, including the candidate-pool
construction with its in-place `extend`. -/
def fuzzyPool (noBrand : List (Nat × String))
    (byB : List (String × List (Nat × String))) (b : String) :
    List (Nat × String) × List (String × List (Nat × String)) :=
  if b ≠ "" then
    match assocGet b byB with
    | some stored =>
      if stored.length < 100 then
        (stored ++ noBrand.take 50, assocSet b (stored ++ noBrand.take 50) byB)
      else (stored, byB)
    | none => (noBrand.take 50, byB)
  else ((noBrand ++ (byB.map (·.2)).flatten).take 500, byB)

def fuzzyStep (sim : String → String → ℚ) (noBrand : List (Nat × String))
    (ssM : List Nat) (st : FzSt) (ip : Nat × Product) : FzSt :=
  if btTitle ip.2 = "" then st
  else
    match fuzzyBest sim (btTitle ip.2) ssM st.2.2.2
        (fuzzyPool noBrand st.1 (btBrand ip.2)).1 (none, 0) with
    | (some si, bs) =>
      ((fuzzyPool noBrand st.1 (btBrand ip.2)).2,
       st.2.1 ++ [⟨ip.1, si, "low", "fuzzy_match_" ++ fmt2 bs⟩],
       st.2.2.1 ++ [ip.1], st.2.2.2 ++ [si])
    | (none, _) =>
      ((fuzzyPool noBrand st.1 (btBrand ip.2)).2, st.2.1, st.2.2.1, st.2.2.2)

/-- `fuzzy_match(...)`: stage 3. -/
def fuzzy_match (sim : String → String → ℚ) (wm ss : List Product)
    (wmM ssM : List Nat) : StageRes :=
  let unW := wm.enum.filter (fun ip => !wmM.contains ip.1)
  let idx := fuzzyIndexes ss ssM
  let r := unW.foldl (fuzzyStep sim idx.2 ssM) (idx.1, [], [], [])
  (r.2.1, r.2.2.1, r.2.2.2)

/-! Stage 4, `category_match`. -/

/-- `product.get("search_query", "").lower()`. -/
def catOf (p : Product) : String :=
  ⟨(p.search_query.getD "").data.map asciiLowerC⟩

/-- The normalized title stage 4 computes (`title` only, no
`product_name` fallback in this stage). -/
def catTitle (p : Product) : String :=
  normalize_title_for_matching (orStr p.title "") (orStr p.brand "")

/-- Bucket unconsumed listings by lower-cased search query. -/
def catIndex (l : List Product) (m : List Nat) :
    List (String × List (Nat × Product)) :=
  l.enum.foldl
    (fun acc ip =>
      if m.contains ip.1 then acc
      else
        if catOf ip.2 ≠ "" then assocApp (catOf ip.2) ip acc else acc) []

/-- The combined score of one category-stage comparison: weighted title
similarity (0.7) plus binary brand agreement (0.3). -/
def catScore (sim : String → String → ℚ) (wmB wmT : String) (sp : Product) : ℚ :=
  sim wmT (catTitle sp) * (7 / 10) +
    (if wmB = "" || btBrand sp = "" || wmB = btBrand sp then (1 : ℚ) else 0) * (3 / 10)

/-- Best-scoring candidate in the shared category: score above the 0.7
threshold, best score wins, first listing wins ties. -/
def catBest (sim : String → String → ℚ) (wmB wmT : String) (ssM ns : List Nat) :
    List (Nat × Product) → Option Nat × ℚ → Option Nat × ℚ
  | [], best => best
  | (si, sp) :: rest, best =>
    if ssM.contains si || ns.contains si then catBest sim wmB wmT ssM ns rest best
    else
      if catTitle sp = "" then catBest sim wmB wmT ssM ns rest best
      else
        if (7 / 10 : ℚ) < catScore sim wmB wmT sp ∧ best.2 < catScore sim wmB wmT sp then
          catBest sim wmB wmT ssM ns rest (some si, catScore sim wmB wmT sp)
        else catBest sim wmB wmT ssM ns rest best

/-- One walmart listing of the category scan. -/
def catInner (sim : String → String → ℚ) (ssM : List Nat)
    (ssItems : List (Nat × Product)) (st : StageRes) (ip : Nat × Product) :
    StageRes :=
  if st.2.1.contains ip.1 then st
  else
    if catTitle ip.2 = "" then st
    else
      match catBest sim (btBrand ip.2) (catTitle ip.2) ssM st.2.2 ssItems (none, 0) with
      | (some si, sc) =>
        (st.1 ++ [⟨ip.1, si, "low", "category_match_" ++ fmt2 sc⟩],
         st.2.1 ++ [ip.1], st.2.2 ++ [si])
      | (none, _) => st

/-- `category_match(...)`: stage 4. -/
def category_match (sim : String → String → ℚ) (wm ss : List Product)
    (wmM ssM : List Nat) : StageRes :=
  let wmCats := catIndex wm wmM
  let ssCats := catIndex ss ssM
  wmCats.foldl
    (fun st ci =>
      match assocGet ci.1 ssCats with
      | none => st
      | some ssItems => ci.2.foldl (catInner sim ssM ssItems) st) ([], [], [])

/-- The full cascade of `main`: the four stages in order, the consumed
index sets accumulated between stages, all matches concatenated. -/
def cascade (sim : String → String → ℚ) (wm ss : List Product) :
    List MT × List Nat × List Nat :=
  let r1 := exact_match wm ss
  let r2 := brand_title_match wm ss r1.2.1 r1.2.2
  let w2 := r1.2.1 ++ r2.2.1
  let s2 := r1.2.2 ++ r2.2.2
  let r3 := fuzzy_match sim wm ss w2 s2
  let w3 := w2 ++ r3.2.1
  let s3 := s2 ++ r3.2.2
  let r4 := category_match sim wm ss w3 s3
  (r1.1 ++ r2.1 ++ r3.1 ++ r4.1, w3 ++ r4.2.1, s3 ++ r4.2.2)

/-- `all_matches` of `main`: the combined ordered match list. -/
def allMatches (sim : String → String → ℚ) (wm ss : List Product) : List MT :=
  (cascade sim wm ss).1

/-! ## Canonical merging (`create_matched_product`) and the pipeline -/

/-- Python `round(x, 2)` on rationals (ties, which the claims checked
here never hit, are rounded up rather than to even). -/
def roundQ2 (q : ℚ) : ℚ := ((round (q * 100) : ℤ) : ℚ) / 100

/-- One per-store offer of a matched record. -/
structure Offer where
  store : String
  store_name : String
  product_id : Option String
  article_number : Option String
  price : Option String
  price_raw : Option String
  price_numeric : Option ℚ
  inventory_status : Option String
  link : Option String
  image_url : Option String
  review_count : Option ℚ := none
  avg_rating : Option ℚ := none
  badge : Option String := none
  search_query : Option String
  offer_type : String
  is_sponsored : Bool
deriving DecidableEq

/-- The merged output record of `create_matched_product`. -/
structure MatchedRec where
  brand : String
  title : String
  description : String
  package_sizing : Option String
  image_url : Option String
  match_confidence : String
  match_method : String
  price_difference : Option ℚ
  price_difference_percent : Option ℚ
  cheaper_store : Option String
  walmart_offer : Offer
  superstore_offer : Offer
deriving DecidableEq

/-- The price-comparison fields of `create_matched_product`: absolute
difference, percent of the average, and the cheaper-store label with its
0.01 tolerance; all `None` when either price is unparseable. -/
def priceComparison (wmPrice ssPrice : Option ℚ) :
    Option ℚ × Option ℚ × Option String :=
  match wmPrice, ssPrice with
  | some a, some b =>
    let diff := |a - b|
    let avg := (a + b) / 2
    let pct := if 0 < avg then some (roundQ2 (diff / avg * 100)) else none
    let cheaper :=
      if a < b - 1 / 100 then "walmart"
      else if b < a - 1 / 100 then "superstore"
      else "same"
    (some (roundQ2 diff), pct, some cheaper)
  | _, _ => (none, none, none)

/-- `create_matched_product(walmart_product, superstore_product,
confidence, method)`. -/
def create_matched_product (wp sp : Product) (conf meth : String) :
    MatchedRec :=
  let wmTitle := orStr wp.title (orStr wp.product_name "")
  let ssTitle := orStr sp.title (orStr sp.product_name "")
  let title := if ssTitle.length > wmTitle.length then ssTitle else wmTitle
  let description :=
    orStr wp.description (orStr wp.short_description (orStr sp.description ""))
  let brand := orStr wp.brand (orStr sp.brand "")
  let imageUrl := pyOrS sp.image_url wp.image_url
  let wmPrice := parse_price wp
  let ssPrice := parse_price sp
  let pc := priceComparison wmPrice ssPrice
  { brand := brand
    title := title
    description := description
    package_sizing := pyOrS sp.package_sizing wp.package_sizing
    image_url := imageUrl
    match_confidence := conf
    match_method := meth
    price_difference := pc.1
    price_difference_percent := pc.2.1
    cheaper_store := pc.2.2
    walmart_offer :=
      { store := "walmart"
        store_name := "Walmart"
        product_id := pyOrS wp.product_id wp.item_id
        article_number := pyOrS wp.article_number wp.item_id
        price := wp.price
        price_raw := wp.price_raw
        price_numeric := wmPrice
        inventory_status := pyOrS wp.inventory_status wp.availability
        link := pyOrS wp.link wp.product_url
        image_url := wp.image_url
        review_count := wp.review_count
        avg_rating := wp.avg_rating
        search_query := wp.search_query
        offer_type := "OG"
        is_sponsored := false }
    superstore_offer :=
      { store := "superstore"
        store_name := "Real Canadian Superstore"
        product_id := sp.product_id
        article_number := sp.article_number
        price := sp.price
        price_raw := sp.price_raw
        price_numeric := ssPrice
        inventory_status := sp.inventory_status
        link := sp.link
        image_url := sp.image_url
        badge := sp.badge
        search_query := sp.search_query
        offer_type := sp.offer_type.getD "OG"
        is_sponsored := sp.is_sponsored.getD false } }

/-- One record of the unmatched-products file (fields via
`dict.get(key, "")`). -/
structure UnmatchedRec where
  store : String
  brand : String
  title : String
  price : String
  price_numeric : Option ℚ
  search_query : String
  link : String
  image_url : String
  product_id : String
  article_number : String
  package_sizing : String
deriving DecidableEq

def mkUnmatched (storeTag : String) (p : Product) : UnmatchedRec :=
  { store := storeTag
    brand := p.brand.getD ""
    title := p.title.getD ""
    price := p.price.getD ""
    price_numeric := parse_price p
    search_query := p.search_query.getD ""
    link := p.link.getD ""
    image_url := p.image_url.getD ""
    product_id := p.product_id.getD ""
    article_number := p.article_number.getD ""
    package_sizing := p.package_sizing.getD "" }

/-- The descending stable sort of `main`
(`matched_products.sort(key=lambda x: x.get("price_difference") or 0,
reverse=True)`).  Python's `reverse=True` sort keeps equal keys in input
order, which is exactly what a stable insertion sort under the
greater-or-equal relation produces. -/
def sortByDiffDesc (l : List MatchedRec) : List MatchedRec :=
  List.insertionSort
    (fun a b => (b.price_difference.getD 0) ≤ (a.price_difference.getD 0)) l

/-- Everything `main` writes: the matched-pairs file content (in output
order) and the unmatched records of both sides. -/
structure PipelineOut where
  matched : List MatchedRec
  unmatchedW : List UnmatchedRec
  unmatchedS : List UnmatchedRec
deriving DecidableEq

def defaultProduct : Product := {}

/-- The full matcher pipeline on two loaded listing collections. -/
def runPipeline (sim : String → String → ℚ) (wm ss : List Product) :
    PipelineOut :=
  let r := cascade sim wm ss
  let recs := r.1.map (fun m =>
    create_matched_product (wm.getD m.wi defaultProduct)
      (ss.getD m.si defaultProduct) m.conf m.meth)
  { matched := sortByDiffDesc recs
    unmatchedW :=
      ((wm.enum.filter (fun ip => !r.2.1.contains ip.1)).map
        (fun ip => mkUnmatched "walmart" ip.2))
    unmatchedS :=
      ((ss.enum.filter (fun ip => !r.2.2.contains ip.1)).map
        (fun ip => mkUnmatched "superstore" ip.2)) }

/-- `main` of `advanced_product_matcher.py` after loading: if either
loaded collection is empty (missing or empty input file), it prints
"Cannot proceed" and returns before writing any output — modelled as
`none`.  Otherwise the pipeline runs and its outputs are written. -/
def matcherRun (sim : String → String → ℚ) (wm ss : List Product) :
    Option PipelineOut :=
  if wm.isEmpty || ss.isEmpty then none else some (runPipeline sim wm ss)

/-! ## The catalog builder, `build_frontend_json.py`

Same normalization machinery with its own (slightly different) tables:
stopwords additionally contain pack/bottle/case words, the synonym table
adds two deleted filler words, the milk-percentage guard has one extra
pattern, the brand alias table is shorter, and `_normalize_title_core`
has no minimum-title-length guard. -/

namespace BFJ

/-- Frontend `STOPWORDS`. -/
def STOPWORDS : List String :=
  ["and", "the", "of", "for", "in", "to", "a", "an", "with", "by", "or",
   "from", "on", "at", "is", "are", "was", "were", "be", "been", "being",
   "bottle", "bottles", "case", "pack"]

/-- Frontend `BRAND_ALIASES` in dict order. -/
def BRAND_ALIASES : List (String × List String) :=
  [("milk2go", ["milk2go", "milk 2 go", "milk2 go", "milk to go"]),
   ("pc", ["presidents choice", "president\x27s choice", "pc"]),
   ("no name", ["no name", "noname", "nn"]),
   ("great value", ["great value", "greatvalue", "gv"]),
   ("neilson", ["neilson", "nielson"]),
   ("dairyland", ["dairyland", "dairy land"]),
   ("natrel", ["natrel", "na trel"]),
   ("beatrice", ["beatrice"]),
   ("lactantia", ["lactantia"])]

/-- Frontend `WORD_SYNONYMS`, pre-arranged in the longest-first
application order (ties by dict insertion order). -/
def WORD_SYNONYMS_SORTED : List (String × String) :=
  [("partly skimmed", "lowfat"), ("part skimmed", "lowfat"),
   ("homogenized", "wholefat"), ("whole milk", "wholefat"),
   ("part skim", "lowfat"), ("chocolat", "chocolate"), ("original", ""),
   ("low fat", "lowfat"), ("skimmed", "nonfat"), ("non fat", "nonfat"),
   ("classic", ""), ("lowfat", "lowfat"), ("nonfat", "nonfat"),
   ("strawb", "strawberry"), ("whole", "wholefat"), ("cocoa", "chocolate"),
   ("straw", "strawberry"), ("vanil", "vanilla"), ("homo", "wholefat"),
   ("skim", "nonfat"), ("choc", "chocolate"), ("van", "vanilla")]

/-- Frontend `_normalize_brand` (same algorithm, its own alias table). -/
def _normalize_brand (brand : String) : String :=
  if brand = "" then ""
  else
    let s := (stripAccentsLowerL brand.data).filter isAlnumL
    let aliasNorm : String → List Char := fun a =>
      (stripAccentsLowerL a.data).filter isAlnumL
    match BRAND_ALIASES.find? (fun ca => (ca.2.map aliasNorm).contains s) with
    | some ca => ca.1
    | none => ⟨s⟩

/-- Frontend `_apply_word_synonyms`. -/
def _apply_word_synonyms (l : List Char) : List Char :=
  WORD_SYNONYMS_SORTED.foldl
    (fun s kr => runSub (mWordLit true kr.1.data) kr.2.data s) l

/-- Matcher for the frontend-only pattern `\b3\.25\s+percent`. -/
def mPct325word (prev : Option Char) (c : Char) (cs : List Char) : Option Nat :=
  if isWordOpt prev then none
  else if c = '3' then
    match litRestCS ".25".data cs with
    | some rest =>
      let n := wsRunLen rest
      if n = 0 then none
      else
        match litRestCS "percent".data (rest.drop n) with
        | some _ => some (3 + n + 7)
        | none => none
    | none => none
  else none

/-- Frontend `_normalize_milk_percentage` (six passes). -/
def _normalize_milk_percentage (l : List Char) : List Char :=
  let l := runSub mPct325 "threepointtwentyfivepercent".data l
  let l := runSub mPct325ws "threepointtwentyfivepercent".data l
  let l := runSub mPct325word "threepointtwentyfivepercent".data l
  let l := runSub (mPctDigit '0') "zeropercentmilk".data l
  let l := runSub (mPctDigit '1') "onepercentmilk".data l
  runSub (mPctDigit '2') "twopercentmilk".data l

/-- Frontend token filter. -/
def keepTok (t : List Char) : Bool :=
  !(STOPWORDS.map String.data).contains t && t.length > 1 && !isDigitStr t

/-- Frontend brand-removal passes (same three passes, frontend brand
normalizer). -/
def removeBrand (brand : String) (l : List Char) : List Char :=
  let bLow := stripAccentsLowerL brand.data
  let l := runSub (mWordLit false bLow) [' '] l
  let bNorm := _normalize_brand brand
  let l := if bNorm ≠ "" then runSub (mWordLit false bNorm.data) [' '] l else l
  let bNospace := bLow.filter isAlnumL
  if bNospace ≠ [] then runSub (mWordLit false bNospace) [' '] l else l

/-- The pre-tokenization pipeline of `_normalize_title_core` (frontend
variants of the tables). -/
def titleCorePre (title brand : String) : List Char :=
  punctToSpace (_denormalize_milk_percentage (_remove_size_tokens
    (_apply_word_synonyms
      (if brand ≠ "" then
        removeBrand brand (_normalize_milk_percentage (stripAccentsLowerL title.data))
      else _normalize_milk_percentage (stripAccentsLowerL title.data)))))

/-- The kept tokens of `_normalize_title_core`. -/
def titleToks (title brand : String) : List (List Char) :=
  (splitRuns isAlnumL (titleCorePre title brand)).filter keepTok

/-- `_normalize_title_core(title, brand)` (no minimum-length guard). -/
def _normalize_title_core (title brand : String) : String :=
  if title = "" then ""
  else if (titleToks title brand).isEmpty then ""
  else ⟨joinSp (sortToks (titleToks title brand))⟩

/-- Python `f"{size:.3f}"` for the nonnegative extracted sizes (ties
rounded up; unreachable for the claims checked here). -/
def fmt3 (q : ℚ) : String :=
  let n := (⌊q * 1000 + 1 / 2⌋).toNat
  natToStr (n / 1000) ++ "." ++
    (if n % 1000 < 10 then "00" else if n % 1000 < 100 then "0" else "") ++
    natToStr (n % 1000)

/-- `_make_match_key(brand, title, package_sizing)`. -/
def _make_match_key (brand title : String) (packageSizing : Option String) :
    String :=
  let brandKey := _normalize_brand brand
  let titleKey := _normalize_title_core title brand
  let combined := title ++ " " ++ (packageSizing.getD "")
  let sz := _extract_size_info combined
  let sizeKey :=
    match sz with
    | (some v, some u) => fmt3 v ++ u
    | _ => "unknown"
  brandKey ++ "|||" ++ titleKey ++ "|||" ++ sizeKey

/-- `_parse_price_numeric(obj)`. -/
def _parse_price_numeric (p : Product) : Option ℚ :=
  match p.price_numeric with
  | some v => some v
  | none =>
    match pyOrS p.price_raw p.price with
    | some s =>
      if s = "" then none
      else
        let cleaned := replaceAll [','] [] (replaceAll ['$'] [] (pyStrip s.data))
        parseFloatQ cleaned
    | none => none

/-- `obj["store"] = store_id`. -/
def loadTag (storeId : String) (o : Product) : Product :=
  { o with store := some storeId }

/-- Link normalization of `load_jsonl`. -/
def loadLink (o : Product) : Product :=
  match pyOrS o.link o.product_url with
  | some l => { o with link := some l, product_url := some l }
  | none => o

/-- Numeric-price fill of `load_jsonl`. -/
def loadPrice (o : Product) : Product :=
  match o.price_numeric with
  | some _ => o
  | none => { o with price_numeric := _parse_price_numeric o }

/-- `load_jsonl(path, store_id)`: a missing file yields nothing; each
loaded record is tagged with the store, gets its link normalized and a
numeric price filled in. -/
def load_jsonl (src : Option (List Product)) (storeId : String) :
    List Product :=
  match src with
  | none => []
  | some objs => objs.map fun o => loadPrice (loadLink (loadTag storeId o))

/-- One per-store offer of the frontend catalog. -/
structure FOffer where
  store : String
  store_name : String
  product_id : Option String
  article_number : Option String
  price : Option String
  price_raw : Option String
  price_numeric : Option ℚ
  inventory_status : Option String
  link : Option String
  image_url : Option String
  offer_type : Option String
  is_sponsored : Bool
  review_count : Option ℚ
  avg_rating : Option ℚ
deriving DecidableEq

/-- One merged catalog product. -/
structure FProduct where
  id : Nat
  brand : String
  title : String
  description : String
  package_sizing : Option String
  image_url : Option String
  search_queries : List String
  offers : List FOffer
  store_count : Nat
  min_price : Option ℚ
  min_price_display : Option String
deriving DecidableEq

/-- `_first_non_empty(items, field_names, default)` specialised to one
string field: the first item whose field is present and nonempty. -/
def firstNonEmptyS (objs : List Product) (f : Product → Option String) :
    Option String :=
  objs.findSome? fun o =>
    match f o with
    | some s => if s = "" then none else some s
    | none => none

/-- The grouping fold of `build_products`: key each loaded object and
append it to its group (`groups.setdefault(mk, []).append(obj)`). -/
def groupObjs (objs : List Product) : List (String × List Product) :=
  objs.foldl
    (fun acc o =>
      let brand := orStr o.brand ""
      let title := orStr o.title (orStr o.product_name "")
      if title = "" then acc
      else assocApp (_make_match_key brand title o.package_sizing) o acc) []

/-- Offer-map key of one object:
`(store, product_id or item_id or article_number or "")`. -/
def offerKey (o : Product) : String × String :=
  (orStr o.store "unknown",
   orStr o.product_id (orStr o.item_id (orStr o.article_number "")))

/-- The offer record built from one object. -/
def mkFOffer (o : Product) : FOffer :=
  { store := orStr o.store "unknown"
    store_name :=
      if orStr o.store "unknown" = "walmart" then "Walmart"
      else "Real Canadian Superstore"
    product_id := pyOrS o.product_id o.item_id
    article_number := pyOrS o.article_number o.item_id
    price := o.price
    price_raw := o.price_raw
    price_numeric := o.price_numeric
    inventory_status := pyOrS o.inventory_status o.availability
    link := o.link
    image_url := o.image_url
    offer_type := o.offer_type
    is_sponsored := o.is_sponsored.getD false
    review_count := o.review_count
    avg_rating := o.avg_rating }

/-- Build the offer list of one group: deduplicate by the offer key,
keeping the first occurrence, in insertion order. -/
def buildOffers (objs : List Product) : List FOffer :=
  (objs.foldl
    (fun (acc : List ((String × String) × FOffer)) o =>
      if (acc.map (·.1)).contains (offerKey o) then acc
      else acc ++ [(offerKey o, mkFOffer o)]) []).map (·.2)

/-- Longest title of the group (`max(titles, key=len)` keeps the first
maximum). -/
def longestTitle (objs : List Product) : String :=
  (objs.foldl
    (fun (best : Option String) o =>
      match pyOrS o.title o.product_name with
      | some t =>
        if t = "" then best
        else
          match best with
          | none => some t
          | some b => if t.length > b.length then some t else some b
      | none => best) none).getD ""

/-- Sorted distinct search queries of the group. -/
def searchQueries (objs : List Product) : List String :=
  ((objs.filterMap fun o =>
      match o.search_query with
      | some q => if q = "" then none else some q
      | none => none).dedup.map String.data
    |> sortToks).map (fun l => (⟨l⟩ : String))

/-- Minimum numeric price across the offers. -/
def minPrice (offers : List FOffer) : Option ℚ :=
  offers.foldl
    (fun acc o =>
      match o.price_numeric with
      | some v =>
        match acc with
        | none => some v
        | some m => if v < m then some v else some m
      | none => acc) none

/-- Build one catalog product from a group (ids are assigned by group
insertion order, starting at 1, before the final sort). -/
def buildOne (idx : Nat) (objs : List Product) : Option FProduct :=
  if (buildOffers objs).isEmpty then none
  else
    some
      { id := idx
        brand := (firstNonEmptyS objs (·.brand)).getD ""
        title := longestTitle objs
        description :=
          ((firstNonEmptyS objs (·.description)).orElse
            (fun _ => firstNonEmptyS objs (·.short_description))).getD ""
        package_sizing := firstNonEmptyS objs (·.package_sizing)
        image_url := firstNonEmptyS objs (·.image_url)
        search_queries := searchQueries objs
        offers := buildOffers objs
        store_count := (buildOffers objs).length
        min_price := minPrice (buildOffers objs)
        min_price_display :=
          (minPrice (buildOffers objs)).map (fun v => "$" ++ fmt2 v) }

/-- The final catalog sort key: `(casefolded title, casefolded brand)`,
stable. -/
def prodLe (a b : FProduct) : Prop :=
  let ta := stripAccentsLowerL a.title.data
  let tb := stripAccentsLowerL b.title.data
  if ta = tb then TokLe (stripAccentsLowerL a.brand.data) (stripAccentsLowerL b.brand.data)
  else TokLe ta tb

instance : DecidableRel prodLe := fun a b => by
  unfold prodLe TokLe; infer_instance

/-- `build_products()` on the two (possibly missing) input files. -/
def build_products (wmSrc ssSrc : Option (List Product)) : List FProduct :=
  List.insertionSort prodLe
    ((groupObjs (load_jsonl wmSrc "walmart" ++ load_jsonl ssSrc "superstore")).enum.filterMap
      fun ig => buildOne (ig.1 + 1) ig.2.2)

end BFJ

/-! ## Lemmas: claiming folds are 1:1

Every cascade stage is a fold that either leaves its state unchanged or
claims a fresh pair of indices; the lemmas below capture the common
shape. -/

/-- Invariant of a claiming stage: the matched-index lists are exactly
the projections of the match list, both projections are duplicate-free,
and every claimed index pair satisfies the stage side-conditions `W`
(walmart side) and `S` (superstore side). -/
def StageInvP (W S : Nat → Prop) (r : StageRes) : Prop :=
  r.2.1 = r.1.map (·.wi) ∧ r.2.2 = r.1.map (·.si) ∧
  (r.1.map (·.wi)).Nodup ∧ (r.1.map (·.si)).Nodup ∧
  ∀ m ∈ r.1, W m.wi ∧ S m.si

theorem contains_iff_mem {a : Nat} {l : List Nat} :
    l.contains a = true ↔ a ∈ l := by simp

/-- Fold lemma for stages that scan a duplicate-free index list (exact,
relaxed, fuzzy): each step either leaves the projected stage state
unchanged or claims the scanned walmart index together with a superstore
index not yet claimed. -/
theorem claimFold_spec {σ : Type} (proj : σ → StageRes)
    (step : σ → Nat × Product → σ) (W S : Nat → Prop)
    (l : List (Nat × Product)) (hl : (l.map Prod.fst).Nodup)
    (hstep : ∀ st ip, ip ∈ l →
      proj (step st ip) = proj st ∨
      ∃ si c me, proj (step st ip) =
          ((proj st).1 ++ [⟨ip.1, si, c, me⟩],
           (proj st).2.1 ++ [ip.1], (proj st).2.2 ++ [si]) ∧
        si ∉ (proj st).2.2 ∧ W ip.1 ∧ S si)
    (st : σ) (hinv : StageInvP W S (proj st))
    (hfresh : ∀ m ∈ (proj st).1, m.wi ∉ l.map Prod.fst) :
    StageInvP W S (proj (l.foldl step st)) := by
  induction l generalizing st with
  | nil => exact hinv
  | cons ip t ih =>
    obtain ⟨h1, h2, h3, h4, h5⟩ := hinv
    have hl' : (t.map Prod.fst).Nodup := (List.nodup_cons.mp hl).2
    have hipt : ip.1 ∉ t.map Prod.fst := (List.nodup_cons.mp hl).1
    rcases hstep st ip (List.mem_cons_self ip t) with heq | ⟨si, c, me, heq, hsi, hW, hS⟩
    · rw [List.foldl_cons]
      refine ih hl' (fun st' ip' hip' => hstep st' ip' (List.mem_cons_of_mem _ hip')) _
        (by rw [heq]; exact ⟨h1, h2, h3, h4, h5⟩) ?_
      rw [heq]
      intro m hm
      exact fun hc => hfresh m hm (List.mem_cons_of_mem _ hc)
    · rw [List.foldl_cons]
      refine ih hl' (fun st' ip' hip' => hstep st' ip' (List.mem_cons_of_mem _ hip')) _ ?_ ?_
      · rw [heq]
        refine ⟨?_, ?_, ?_, ?_, ?_⟩
        · simp [h1]
        · simp [h2]
        · simp only [List.map_append, List.map_cons, List.map_nil]
          rw [List.nodup_append]
          refine ⟨h3, List.nodup_singleton _, ?_⟩
          intro x hx
          simp only [List.mem_singleton]
          intro hxe
          subst hxe
          obtain ⟨m, hm, hmw⟩ := List.mem_map.mp hx
          refine hfresh m hm ?_
          rw [List.map_cons, hmw]
          exact List.mem_cons_self _ _
        · simp only [List.map_append, List.map_cons, List.map_nil]
          rw [List.nodup_append]
          refine ⟨h4, List.nodup_singleton _, ?_⟩
          intro x hx
          simp only [List.mem_singleton]
          intro hxe
          subst hxe
          rw [← h2] at hx
          exact hsi hx
        · intro m hm
          rcases List.mem_append.mp hm with hm' | hm'
          · exact h5 m hm'
          · simp only [List.mem_singleton] at hm'
            subst hm'
            exact ⟨hW, hS⟩
      · rw [heq]
        intro m hm
        rcases List.mem_append.mp hm with hm' | hm'
        · exact fun hc => hfresh m hm' (List.mem_cons_of_mem _ hc)
        · simp only [List.mem_singleton] at hm'
          subst hm'
          exact hipt

/-- Fold lemma for guard-based stages (the category scan): each claiming
step explicitly checks that the walmart index is not yet claimed. -/
theorem claimFoldGuard_spec {σ α : Type} (proj : σ → StageRes)
    (step : σ → α → σ) (W S : Nat → Prop) (l : List α)
    (hstep : ∀ st ip, ip ∈ l →
      proj (step st ip) = proj st ∨
      ∃ wi si c me, proj (step st ip) =
          ((proj st).1 ++ [⟨wi, si, c, me⟩],
           (proj st).2.1 ++ [wi], (proj st).2.2 ++ [si]) ∧
        wi ∉ (proj st).2.1 ∧ si ∉ (proj st).2.2 ∧ W wi ∧ S si)
    (st : σ) (hinv : StageInvP W S (proj st)) :
    StageInvP W S (proj (l.foldl step st)) := by
  induction l generalizing st with
  | nil => exact hinv
  | cons ip t ih =>
    obtain ⟨h1, h2, h3, h4, h5⟩ := hinv
    rcases hstep st ip (List.mem_cons_self ip t) with heq | ⟨wi, si, c, me, heq, hwi, hsi, hW, hS⟩
    · rw [List.foldl_cons]
      exact ih (fun st' ip' hip' => hstep st' ip' (List.mem_cons_of_mem _ hip')) _
        (by rw [heq]; exact ⟨h1, h2, h3, h4, h5⟩)
    · rw [List.foldl_cons]
      refine ih (fun st' ip' hip' => hstep st' ip' (List.mem_cons_of_mem _ hip')) _ ?_
      rw [heq]
      refine ⟨by simp [h1], by simp [h2], ?_, ?_, ?_⟩
      · simp only [List.map_append, List.map_cons, List.map_nil]
        rw [List.nodup_append]
        refine ⟨h3, List.nodup_singleton _, ?_⟩
        intro x hx
        simp only [List.mem_singleton]
        intro hxe
        subst hxe
        rw [← h1] at hx
        exact hwi hx
      · simp only [List.map_append, List.map_cons, List.map_nil]
        rw [List.nodup_append]
        refine ⟨h4, List.nodup_singleton _, ?_⟩
        intro x hx
        simp only [List.mem_singleton]
        intro hxe
        subst hxe
        rw [← h2] at hx
        exact hsi hx
      · intro m hm
        rcases List.mem_append.mp hm with hm' | hm'
        · exact h5 m hm'
        · simp only [List.mem_singleton] at hm'
          subst hm'
          exact ⟨hW, hS⟩

/-- Side-condition of the exact and relaxed stages: the listing at the
index exists and has a nonempty normalized brand and title-core. -/
def btGood (l : List Product) (i : Nat) : Prop :=
  ∃ p, l[i]? = some p ∧ btBrand p ≠ "" ∧ btTitle p ≠ ""

theorem create_match_key_fst (p : Product) :
    (create_match_key p).1 = btBrand p := rfl

theorem create_match_key_snd_fst (p : Product) :
    (create_match_key p).2.1 = btTitle p := rfl

/-- Values stored in an association bucket all satisfy `P` if they did
before and the appended value does. -/
theorem assocApp_pred {κ α : Type} [DecidableEq κ] (P : α → Prop) (k : κ)
    (v : α) (acc : List (κ × List α))
    (hacc : ∀ kv ∈ acc, ∀ x ∈ kv.2, P x) (hv : P v) :
    ∀ kv ∈ assocApp k v acc, ∀ x ∈ kv.2, P x := by
  induction acc with
  | nil =>
    intro kv hkv x hx
    simp only [assocApp, List.mem_singleton] at hkv
    subst hkv
    simp only [List.mem_singleton] at hx
    subst hx
    exact hv
  | cons h t ih =>
    intro kv hkv x hx
    obtain ⟨k', vs⟩ := h
    simp only [assocApp] at hkv
    split at hkv
    · rcases List.mem_cons.mp hkv with hkv' | hkv'
      · subst hkv'
        rcases List.mem_append.mp hx with hx' | hx'
        · exact hacc (k', vs) (List.mem_cons_self _ _) x hx'
        · simp only [List.mem_singleton] at hx'
          subst hx'
          exact hv
      · exact hacc kv (List.mem_cons_of_mem _ hkv') x hx
    · rcases List.mem_cons.mp hkv with hkv' | hkv'
      · subst hkv'
        exact hacc (k', vs) (List.mem_cons_self _ _) x hx
      · exact ih (fun kv' hkv' => hacc kv' (List.mem_cons_of_mem _ hkv')) kv hkv' x hx

/-- Every superstore index stored in the exact-stage index is a valid
listing with nonempty normalized brand and title. -/
theorem exactIndex_pred (ss : List Product) :
    ∀ kv ∈ exactIndex ss, ∀ i ∈ kv.2, btGood ss i := by
  unfold exactIndex
  have main : ∀ (l : List (Nat × Product)) (acc : List (MKey × List Nat)),
      (∀ ip ∈ l, ip ∈ ss.enum) →
      (∀ kv ∈ acc, ∀ i ∈ kv.2, btGood ss i) →
      ∀ kv ∈ l.foldl (fun acc ip =>
          let k := create_match_key ip.2
          if k.1 ≠ "" && k.2.1 ≠ "" then assocApp k ip.1 acc else acc) acc,
        ∀ i ∈ kv.2, btGood ss i := by
    intro l
    induction l with
    | nil =>
      intro acc _ hacc kv hkv
      exact hacc kv hkv
    | cons ip t ih =>
      intro acc hl hacc kv hkv
      rw [List.foldl_cons] at hkv
      refine ih _ (fun ip' hip' => hl ip' (List.mem_cons_of_mem _ hip')) ?_ kv hkv
      by_cases hc : (create_match_key ip.2).1 ≠ "" && (create_match_key ip.2).2.1 ≠ ""
      · simp only [hc, if_true]
        refine assocApp_pred _ _ _ _ hacc ?_
        have hmem : ip ∈ ss.enum := hl ip (List.mem_cons_self _ _)
        have hget : ss[ip.1]? = some ip.2 := List.mem_enum_iff_getElem?.mp hmem
        simp only [Bool.and_eq_true, ne_eq, decide_eq_true_eq] at hc
        exact ⟨ip.2, hget, by rw [← create_match_key_fst]; exact hc.1,
          by rw [← create_match_key_snd_fst]; exact hc.2⟩
      · simp only [hc, if_false]
        exact hacc
  intro kv hkv i hi
  exact main ss.enum [] (fun ip h => h) (by intro kv h; cases h) kv hkv i hi

theorem assocGet_mem {κ α : Type} [DecidableEq κ] (k : κ)
    (m : List (κ × List α)) (lst : List α) (h : assocGet k m = some lst) :
    ∃ kv ∈ m, kv.2 = lst := by
  unfold assocGet at h
  cases hf : m.find? (fun kv => decide (kv.1 = k)) with
  | none => rw [hf] at h; cases h
  | some kv =>
    rw [hf] at h
    exact ⟨kv, List.mem_of_find?_eq_some hf, by simpa using h⟩

/-- Case analysis of one exact-stage step. -/
theorem exactStep_cases (idx : List (MKey × List Nat)) (st : StageRes)
    (ip : Nat × Product) :
    exactStep idx st ip = st ∨
    ∃ si, (∃ lst, assocGet (create_match_key ip.2) idx = some lst ∧
        si ∈ lst ∧ si ∉ st.2.2) ∧
      btBrand ip.2 ≠ "" ∧ btTitle ip.2 ≠ "" ∧
      exactStep idx st ip =
        (st.1 ++ [⟨ip.1, si, "high", "exact_brand_title_size"⟩],
         st.2.1 ++ [ip.1], st.2.2 ++ [si]) := by
  obtain ⟨ms, wmM, ssM⟩ := st
  unfold exactStep
  split
  · left; rfl
  next hcond =>
    simp only [Bool.or_eq_true, decide_eq_true_eq, not_or] at hcond
    split
    · left; rfl
    next lst hg =>
      split
      · left; rfl
      next si hf =>
        right
        refine ⟨si, ⟨lst, hg, List.mem_of_find?_eq_some hf, ?_⟩, ?_, ?_, rfl⟩
        · have := List.find?_some hf
          simp only [Bool.not_eq_true'] at this
          intro hmem
          rw [contains_iff_mem.mpr hmem] at this
          cases this
        · rw [← create_match_key_fst]; exact hcond.1
        · rw [← create_match_key_snd_fst]; exact hcond.2

/-- Specification of the exact stage: matched-index lists are exactly the
claims, each side duplicate-free, and every claimed listing exists and
has nonempty normalized brand and title-core. -/
theorem exact_match_spec (wm ss : List Product) :
    StageInvP (btGood wm) (btGood ss) (exact_match wm ss) := by
  refine claimFold_spec (fun r => r) (exactStep (exactIndex ss))
    (btGood wm) (btGood ss) wm.enum ?_ ?_ ([], [], [])
    ⟨rfl, rfl, List.nodup_nil, List.nodup_nil, by intro m h; cases h⟩
    (by intro m h; cases h)
  · rw [List.enum_map_fst]; exact List.nodup_range _
  · intro st ip hip
    rcases exactStep_cases (exactIndex ss) st ip with h | ⟨si, ⟨lst, hg, hmem, hns⟩, hb, ht, h⟩
    · left; exact h
    · right
      refine ⟨si, "high", "exact_brand_title_size", h, hns, ?_, ?_⟩
      · exact ⟨ip.2, List.mem_enum_iff_getElem?.mp hip, hb, ht⟩
      · obtain ⟨kv, hkv, hkv2⟩ := assocGet_mem _ _ _ hg
        exact exactIndex_pred ss kv hkv si (hkv2 ▸ hmem)

/-- Every superstore index stored in the relaxed-stage index is
unconsumed and a valid listing with nonempty normalized brand and
title. -/
theorem btIndex_pred (ss : List Product) (ssM : List Nat) :
    ∀ kv ∈ btIndex ss ssM, ∀ i ∈ kv.2, i ∉ ssM ∧ btGood ss i := by
  unfold btIndex
  have main : ∀ (l : List (Nat × Product))
      (acc : List ((String × String) × List Nat)),
      (∀ ip ∈ l, ip ∈ ss.enum) →
      (∀ kv ∈ acc, ∀ i ∈ kv.2, i ∉ ssM ∧ btGood ss i) →
      ∀ kv ∈ l.foldl (fun acc ip =>
          if ssM.contains ip.1 then acc
          else
            let b := btBrand ip.2
            let t := btTitle ip.2
            if b ≠ "" && t ≠ "" then assocApp (b, t) ip.1 acc else acc) acc,
        ∀ i ∈ kv.2, i ∉ ssM ∧ btGood ss i := by
    intro l
    induction l with
    | nil =>
      intro acc _ hacc kv hkv
      exact hacc kv hkv
    | cons ip t ih =>
      intro acc hl hacc kv hkv
      rw [List.foldl_cons] at hkv
      refine ih _ (fun ip' hip' => hl ip' (List.mem_cons_of_mem _ hip')) ?_ kv hkv
      by_cases hm : ssM.contains ip.1
      · simp only [hm, if_true]
        exact hacc
      · simp only [hm, Bool.false_eq_true, if_false]
        by_cases hc : btBrand ip.2 ≠ "" && btTitle ip.2 ≠ ""
        · simp only [hc, if_true]
          refine assocApp_pred _ _ _ _ hacc ?_
          have hget : ss[ip.1]? = some ip.2 :=
            List.mem_enum_iff_getElem?.mp (hl ip (List.mem_cons_self _ _))
          simp only [Bool.and_eq_true, ne_eq, decide_eq_true_eq] at hc
          exact ⟨fun hmem => hm (contains_iff_mem.mpr hmem),
            ip.2, hget, hc.1, hc.2⟩
        · simp only [hc, if_false]
          exact hacc
  intro kv hkv i hi
  exact main ss.enum [] (fun ip h => h) (by intro kv h; cases h) kv hkv i hi

/-- Case analysis of one relaxed-stage step. -/
theorem btStep_cases (idx : List ((String × String) × List Nat))
    (wmM ssM : List Nat) (st : StageRes) (ip : Nat × Product) :
    btStep idx wmM ssM st ip = st ∨
    ∃ si, (∃ lst, assocGet (btBrand ip.2, btTitle ip.2) idx = some lst ∧
        si ∈ lst ∧ si ∉ ssM ∧ si ∉ st.2.2) ∧
      ip.1 ∉ wmM ∧ btBrand ip.2 ≠ "" ∧ btTitle ip.2 ≠ "" ∧
      btStep idx wmM ssM st ip =
        (st.1 ++ [⟨ip.1, si, "medium", "brand_title_different_size"⟩],
         st.2.1 ++ [ip.1], st.2.2 ++ [si]) := by
  unfold btStep
  split
  · left; rfl
  next hwm =>
    split
    · left; rfl
    next hcond =>
      simp only [Bool.or_eq_true, decide_eq_true_eq, not_or] at hcond
      split
      · left; rfl
      next lst hg =>
        split
        · left; rfl
        next si hf =>
          right
          have hfp := List.find?_some hf
          simp only [Bool.and_eq_true, Bool.not_eq_true'] at hfp
          refine ⟨si, ⟨lst, hg, List.mem_of_find?_eq_some hf, ?_, ?_⟩,
            ?_, hcond.1, hcond.2, rfl⟩
          · intro hmem
            rw [contains_iff_mem.mpr hmem] at hfp
            cases hfp.1
          · intro hmem
            rw [contains_iff_mem.mpr hmem] at hfp
            cases hfp.2
          · intro hmem
            rw [contains_iff_mem.mpr hmem] at hwm
            cases hwm rfl

/-- Specification of the relaxed stage: besides the claiming invariants,
every claimed index is outside the already-consumed sets and both sides
have nonempty normalized brand and title-core. -/
theorem brand_title_match_spec (wm ss : List Product) (wmM ssM : List Nat) :
    StageInvP (fun i => i ∉ wmM ∧ btGood wm i)
      (fun j => j ∉ ssM ∧ btGood ss j)
      (brand_title_match wm ss wmM ssM) := by
  refine claimFold_spec (fun r => r) (btStep (btIndex ss ssM) wmM ssM)
    _ _ wm.enum ?_ ?_ ([], [], [])
    ⟨rfl, rfl, List.nodup_nil, List.nodup_nil, by intro m h; cases h⟩
    (by intro m h; cases h)
  · rw [List.enum_map_fst]; exact List.nodup_range _
  · intro st ip hip
    rcases btStep_cases (btIndex ss ssM) wmM ssM st ip with h |
      ⟨si, ⟨lst, hg, hmem, hsm, hns⟩, hwm, hb, ht, h⟩
    · left; exact h
    · right
      refine ⟨si, "medium", "brand_title_different_size", h, hns, ?_, ?_⟩
      · exact ⟨hwm, ip.2, List.mem_enum_iff_getElem?.mp hip, hb, ht⟩
      · obtain ⟨kv, hkv, hkv2⟩ := assocGet_mem _ _ _ hg
        exact btIndex_pred ss ssM kv hkv si (hkv2 ▸ hmem)

/-- The fuzzy candidate scan only ever returns an index that passed its
consumed-set guards. -/
theorem fuzzyBest_spec (sim : String → String → ℚ) (wmT : String)
    (ssM ns : List Nat) :
    ∀ (cands : List (Nat × String)) (best : Option Nat × ℚ),
      (∀ j, best.1 = some j → j ∉ ssM ∧ j ∉ ns) →
      ∀ si bs, fuzzyBest sim wmT ssM ns cands best = (some si, bs) →
        si ∉ ssM ∧ si ∉ ns := by
  intro cands
  induction cands with
  | nil =>
    intro best hbest si bs h
    unfold fuzzyBest at h
    exact hbest si (by rw [h])
  | cons c rest ih =>
    intro best hbest si bs h
    obtain ⟨cj, ct⟩ := c
    unfold fuzzyBest at h
    split at h
    · exact ih best hbest si bs h
    next hguard =>
      split at h
      · exact ih best hbest si bs h
      · split at h
        next hscore =>
          split at h
          · simp only [Prod.mk.injEq] at h
            have : cj = si := by
              have := h.1
              injection this
            subst this
            simp only [Bool.or_eq_true, not_or] at hguard
            exact ⟨fun hm => hguard.1 (contains_iff_mem.mpr hm),
              fun hm => hguard.2 (contains_iff_mem.mpr hm)⟩
          · refine ih _ ?_ si bs h
            intro j hj
            simp only [Option.some.injEq] at hj
            subst hj
            simp only [Bool.or_eq_true, not_or] at hguard
            exact ⟨fun hm => hguard.1 (contains_iff_mem.mpr hm),
              fun hm => hguard.2 (contains_iff_mem.mpr hm)⟩
        · exact ih best hbest si bs h

/-- Specification of the fuzzy stage. -/
theorem fuzzy_match_spec (sim : String → String → ℚ) (wm ss : List Product)
    (wmM ssM : List Nat) :
    StageInvP (fun i => i ∉ wmM) (fun j => j ∉ ssM)
      (fuzzy_match sim wm ss wmM ssM) := by
  unfold fuzzy_match
  refine claimFold_spec (fun r : FzSt => (r.2.1, r.2.2.1, r.2.2.2))
    (fuzzyStep sim (fuzzyIndexes ss ssM).2 ssM)
    _ _ (wm.enum.filter (fun ip => !wmM.contains ip.1)) ?_ ?_
    ((fuzzyIndexes ss ssM).1, [], [], [])
    ⟨rfl, rfl, List.nodup_nil, List.nodup_nil, by intro m h; cases h⟩
    (by intro m h; cases h)
  · refine List.Nodup.sublist (List.Sublist.map _ (List.filter_sublist _)) ?_
    rw [List.enum_map_fst]; exact List.nodup_range _
  · intro st ip hip
    have hipw : ip.1 ∉ wmM := by
      have := (List.mem_filter.mp hip).2
      simp only [Bool.not_eq_true'] at this
      intro hm
      rw [contains_iff_mem.mpr hm] at this
      cases this
    unfold fuzzyStep
    split
    · left; rfl
    next =>
      split
      next si bs hf =>
        right
        have hsi := fuzzyBest_spec sim (btTitle ip.2) ssM st.2.2.2 _ _
          (by intro j hj; cases hj) si bs hf
        exact ⟨si, "low", "fuzzy_match_" ++ fmt2 bs, rfl, hsi.2, hipw, hsi.1⟩
      next bs hf => left; rfl

/-- Every listing stored in a category bucket was unconsumed when the
bucket was built. -/
theorem catIndex_pred (l : List Product) (m : List Nat) :
    ∀ kv ∈ catIndex l m, ∀ ip ∈ kv.2, ip.1 ∉ m := by
  unfold catIndex
  have main : ∀ (xs : List (Nat × Product))
      (acc : List (String × List (Nat × Product))),
      (∀ kv ∈ acc, ∀ ip ∈ kv.2, ip.1 ∉ m) →
      ∀ kv ∈ xs.foldl (fun acc ip =>
          if m.contains ip.1 then acc
          else
            if catOf ip.2 ≠ "" then assocApp (catOf ip.2) ip acc else acc) acc,
        ∀ ip ∈ kv.2, ip.1 ∉ m := by
    intro xs
    induction xs with
    | nil =>
      intro acc hacc kv hkv
      exact hacc kv hkv
    | cons ip t ih =>
      intro acc hacc kv hkv
      rw [List.foldl_cons] at hkv
      refine ih _ ?_ kv hkv
      by_cases hm : m.contains ip.1
      · simp only [hm, if_true]
        exact hacc
      · simp only [hm, Bool.false_eq_true, if_false]
        by_cases hc : catOf ip.2 ≠ ""
        · rw [if_pos hc]
          refine assocApp_pred _ _ _ _ hacc ?_
          intro hmem
          rw [contains_iff_mem.mpr hmem] at hm
          exact hm rfl
        · rw [if_neg hc]
          exact hacc
  intro kv hkv
  exact main l.enum [] (by intro kv h; cases h) kv hkv

/-- The category candidate scan only ever returns an index that passed
its consumed-set guards. -/
theorem catBest_spec (sim : String → String → ℚ) (wmB wmT : String)
    (ssM ns : List Nat) :
    ∀ (cands : List (Nat × Product)) (best : Option Nat × ℚ),
      (∀ j, best.1 = some j → j ∉ ssM ∧ j ∉ ns) →
      ∀ si bs, catBest sim wmB wmT ssM ns cands best = (some si, bs) →
        si ∉ ssM ∧ si ∉ ns := by
  intro cands
  induction cands with
  | nil =>
    intro best hbest si bs h
    unfold catBest at h
    exact hbest si (by rw [h])
  | cons c rest ih =>
    intro best hbest si bs h
    obtain ⟨cj, sp⟩ := c
    unfold catBest at h
    split at h
    · exact ih best hbest si bs h
    next hguard =>
      split at h
      · exact ih best hbest si bs h
      · split at h
        · refine ih _ ?_ si bs h
          intro j hj
          simp only [Option.some.injEq] at hj
          subst hj
          simp only [Bool.or_eq_true, not_or] at hguard
          exact ⟨fun hm => hguard.1 (contains_iff_mem.mpr hm),
            fun hm => hguard.2 (contains_iff_mem.mpr hm)⟩
        · exact ih best hbest si bs h

/-- Case analysis of one category-stage step. -/
theorem catInner_cases (sim : String → String → ℚ) (ssM : List Nat)
    (ssItems : List (Nat × Product)) (st : StageRes) (ip : Nat × Product) :
    catInner sim ssM ssItems st ip = st ∨
    ∃ si sc, ip.1 ∉ st.2.1 ∧ si ∉ ssM ∧ si ∉ st.2.2 ∧
      catInner sim ssM ssItems st ip =
        (st.1 ++ [⟨ip.1, si, "low", "category_match_" ++ fmt2 sc⟩],
         st.2.1 ++ [ip.1], st.2.2 ++ [si]) := by
  unfold catInner
  split
  · left; rfl
  next hnw =>
    split
    · left; rfl
    next =>
      split
      next si sc hf =>
        right
        have hsi := catBest_spec sim (btBrand ip.2) (catTitle ip.2) ssM st.2.2 _ _
          (by intro j hj; cases hj) si sc hf
        refine ⟨si, sc, ?_, hsi.1, hsi.2, rfl⟩
        intro hmem
        rw [contains_iff_mem.mpr hmem] at hnw
        exact hnw rfl
      next sc hf => left; rfl

/-- Specification of the category stage. -/
theorem category_match_spec (sim : String → String → ℚ)
    (wm ss : List Product) (wmM ssM : List Nat) :
    StageInvP (fun i => i ∉ wmM) (fun j => j ∉ ssM)
      (category_match sim wm ss wmM ssM) := by
  unfold category_match
  have main : ∀ (cats : List (String × List (Nat × Product))) (st : StageRes),
      (∀ kv ∈ cats, ∀ ip ∈ kv.2, ip.1 ∉ wmM) →
      StageInvP (fun i => i ∉ wmM) (fun j => j ∉ ssM) st →
      StageInvP (fun i => i ∉ wmM) (fun j => j ∉ ssM)
        (cats.foldl (fun st ci =>
          match assocGet ci.1 (catIndex ss ssM) with
          | none => st
          | some ssItems => ci.2.foldl (catInner sim ssM ssItems) st) st) := by
    intro cats
    induction cats with
    | nil =>
      intro st _ hinv
      exact hinv
    | cons ci t ih =>
      intro st hcats hinv
      rw [List.foldl_cons]
      refine ih _ (fun kv hkv => hcats kv (List.mem_cons_of_mem _ hkv)) ?_
      cases hg : assocGet ci.1 (catIndex ss ssM) with
      | none => simpa [hg] using hinv
      | some ssItems =>
        simp only [hg]
        refine claimFoldGuard_spec (fun r => r) (catInner sim ssM ssItems)
          _ _ ci.2 ?_ st hinv
        intro st' ip hip
        rcases catInner_cases sim ssM ssItems st' ip with h | ⟨si, sc, hwi, hsm, hns, h⟩
        · left; exact h
        · right
          exact ⟨ip.1, si, "low", "category_match_" ++ fmt2 sc, h, hwi, hns,
            hcats ci (List.mem_cons_self _ _) ip hip, hsm⟩
  exact main (catIndex wm wmM) ([], [], []) (catIndex_pred wm wmM)
    ⟨rfl, rfl, List.nodup_nil, List.nodup_nil, by intro m h; cases h⟩

/-- Four-chunk concatenation with pairwise-disjoint duplicate-free
chunks is duplicate-free. -/
theorem nodup_append_chain {α : Type} {l1 l2 l3 l4 : List α}
    (h1 : l1.Nodup) (h2 : l2.Nodup) (h3 : l3.Nodup) (h4 : l4.Nodup)
    (d21 : ∀ x ∈ l2, x ∉ l1) (d31 : ∀ x ∈ l3, x ∉ l1)
    (d32 : ∀ x ∈ l3, x ∉ l2) (d41 : ∀ x ∈ l4, x ∉ l1)
    (d42 : ∀ x ∈ l4, x ∉ l2) (d43 : ∀ x ∈ l4, x ∉ l3) :
    (l1 ++ l2 ++ l3 ++ l4).Nodup := by
  rw [List.nodup_append]
  refine ⟨?_, h4, ?_⟩
  · rw [List.nodup_append]
    refine ⟨?_, h3, ?_⟩
    · rw [List.nodup_append]
      exact ⟨h1, h2, fun x hx hx2 => d21 x hx2 hx⟩
    · intro x hx hx3
      rcases List.mem_append.mp hx with h | h
      · exact d31 x hx3 h
      · exact d32 x hx3 h
  · intro x hx hx4
    rcases List.mem_append.mp hx with h | h
    · rcases List.mem_append.mp h with h' | h'
      · exact d41 x hx4 h'
      · exact d42 x hx4 h'
    · exact d43 x hx4 h

/-- The combined match list written out stage by stage (the `let`
bindings of `cascade` unfolded). -/
theorem allMatches_eq (sim : String → String → ℚ) (wm ss : List Product) :
    allMatches sim wm ss =
      (exact_match wm ss).1 ++
      (brand_title_match wm ss (exact_match wm ss).2.1 (exact_match wm ss).2.2).1 ++
      (fuzzy_match sim wm ss
        ((exact_match wm ss).2.1 ++ (brand_title_match wm ss (exact_match wm ss).2.1 (exact_match wm ss).2.2).2.1)
        ((exact_match wm ss).2.2 ++ (brand_title_match wm ss (exact_match wm ss).2.1 (exact_match wm ss).2.2).2.2)).1 ++
      (category_match sim wm ss
        ((exact_match wm ss).2.1 ++ (brand_title_match wm ss (exact_match wm ss).2.1 (exact_match wm ss).2.2).2.1 ++
          (fuzzy_match sim wm ss
            ((exact_match wm ss).2.1 ++ (brand_title_match wm ss (exact_match wm ss).2.1 (exact_match wm ss).2.2).2.1)
            ((exact_match wm ss).2.2 ++ (brand_title_match wm ss (exact_match wm ss).2.1 (exact_match wm ss).2.2).2.2)).2.1)
        ((exact_match wm ss).2.2 ++ (brand_title_match wm ss (exact_match wm ss).2.1 (exact_match wm ss).2.2).2.2 ++
          (fuzzy_match sim wm ss
            ((exact_match wm ss).2.1 ++ (brand_title_match wm ss (exact_match wm ss).2.1 (exact_match wm ss).2.2).2.1)
            ((exact_match wm ss).2.2 ++ (brand_title_match wm ss (exact_match wm ss).2.1 (exact_match wm ss).2.2).2.2)).2.2)).1 := by
  rfl

/-- C1: matching is 1:1 — after the four-stage cascade (exact, relaxed
brand+title, fuzzy, categorical) completes on any two input listing
collections (and for any string-similarity function), every listing index
appears in at most one MatchCandidate: the walmart-side indices of the
combined match list are pairwise distinct, and so are the
superstore-side indices. -/
theorem claim_C1_cascade_matching_is_one_to_one (sim : String → String → ℚ)
    (wm ss : List Product) :
    ((allMatches sim wm ss).map (·.wi)).Nodup ∧
    ((allMatches sim wm ss).map (·.si)).Nodup := by
  have s1 := exact_match_spec wm ss
  have s2 := brand_title_match_spec wm ss (exact_match wm ss).2.1
    (exact_match wm ss).2.2
  have s3 := fuzzy_match_spec sim wm ss
    ((exact_match wm ss).2.1 ++ (brand_title_match wm ss (exact_match wm ss).2.1 (exact_match wm ss).2.2).2.1)
    ((exact_match wm ss).2.2 ++ (brand_title_match wm ss (exact_match wm ss).2.1 (exact_match wm ss).2.2).2.2)
  have s4 := category_match_spec sim wm ss
    ((exact_match wm ss).2.1 ++ (brand_title_match wm ss (exact_match wm ss).2.1 (exact_match wm ss).2.2).2.1 ++
      (fuzzy_match sim wm ss
        ((exact_match wm ss).2.1 ++ (brand_title_match wm ss (exact_match wm ss).2.1 (exact_match wm ss).2.2).2.1)
        ((exact_match wm ss).2.2 ++ (brand_title_match wm ss (exact_match wm ss).2.1 (exact_match wm ss).2.2).2.2)).2.1)
    ((exact_match wm ss).2.2 ++ (brand_title_match wm ss (exact_match wm ss).2.1 (exact_match wm ss).2.2).2.2 ++
      (fuzzy_match sim wm ss
        ((exact_match wm ss).2.1 ++ (brand_title_match wm ss (exact_match wm ss).2.1 (exact_match wm ss).2.2).2.1)
        ((exact_match wm ss).2.2 ++ (brand_title_match wm ss (exact_match wm ss).2.1 (exact_match wm ss).2.2).2.2)).2.2)
  rw [allMatches_eq]
  set r1 := exact_match wm ss
  set r2 := brand_title_match wm ss r1.2.1 r1.2.2
  set r3 := fuzzy_match sim wm ss (r1.2.1 ++ r2.2.1) (r1.2.2 ++ r2.2.2)
  set r4 := category_match sim wm ss (r1.2.1 ++ r2.2.1 ++ r3.2.1)
    (r1.2.2 ++ r2.2.2 ++ r3.2.2)
  obtain ⟨e1w, e1s, n1w, n1s, _⟩ := s1
  obtain ⟨e2w, e2s, n2w, n2s, p2⟩ := s2
  obtain ⟨e3w, e3s, n3w, n3s, p3⟩ := s3
  obtain ⟨e4w, e4s, n4w, n4s, p4⟩ := s4
  constructor
  · simp only [List.map_append]
    refine nodup_append_chain n1w n2w n3w n4w ?_ ?_ ?_ ?_ ?_ ?_ <;>
      intro x hx <;> obtain ⟨m, hm, hmw⟩ := List.mem_map.mp hx <;> subst hmw
    · rw [← e1w]; exact (p2 m hm).1.1
    · rw [← e1w]
      intro hc
      exact (p3 m hm).1 (List.mem_append.mpr (Or.inl hc))
    · rw [← e2w]
      intro hc
      exact (p3 m hm).1 (List.mem_append.mpr (Or.inr hc))
    · rw [← e1w]
      intro hc
      exact (p4 m hm).1 (List.mem_append.mpr (Or.inl (List.mem_append.mpr (Or.inl hc))))
    · rw [← e2w]
      intro hc
      exact (p4 m hm).1 (List.mem_append.mpr (Or.inl (List.mem_append.mpr (Or.inr hc))))
    · rw [← e3w]
      intro hc
      exact (p4 m hm).1 (List.mem_append.mpr (Or.inr hc))
  · simp only [List.map_append]
    refine nodup_append_chain n1s n2s n3s n4s ?_ ?_ ?_ ?_ ?_ ?_ <;>
      intro x hx <;> obtain ⟨m, hm, hmw⟩ := List.mem_map.mp hx <;> subst hmw
    · rw [← e1s]; exact (p2 m hm).2.1
    · rw [← e1s]
      intro hc
      exact (p3 m hm).2 (List.mem_append.mpr (Or.inl hc))
    · rw [← e2s]
      intro hc
      exact (p3 m hm).2 (List.mem_append.mpr (Or.inr hc))
    · rw [← e1s]
      intro hc
      exact (p4 m hm).2 (List.mem_append.mpr (Or.inl (List.mem_append.mpr (Or.inl hc))))
    · rw [← e2s]
      intro hc
      exact (p4 m hm).2 (List.mem_append.mpr (Or.inl (List.mem_append.mpr (Or.inr hc))))
    · rw [← e3s]
      intro hc
      exact (p4 m hm).2 (List.mem_append.mpr (Or.inr hc))

/-! ## Lemmas: catalog-builder provenance -/

theorem loadLink_store (o : Product) : (BFJ.loadLink o).store = o.store := by
  unfold BFJ.loadLink
  split <;> rfl

theorem loadPrice_store (o : Product) : (BFJ.loadPrice o).store = o.store := by
  unfold BFJ.loadPrice
  split <;> rfl

/-- Every object yielded by `load_jsonl` carries its store tag. -/
theorem load_jsonl_store (src : Option (List Product)) (tag : String) :
    ∀ o ∈ BFJ.load_jsonl src tag, o.store = some tag := by
  cases src with
  | none => intro o h; cases h
  | some objs =>
    intro o h
    simp only [BFJ.load_jsonl, List.mem_map] at h
    obtain ⟨o0, _, ho⟩ := h
    subst ho
    rw [loadPrice_store, loadLink_store]
    rfl

/-- Every object in every group of `groupObjs` came from the input
object list. -/
theorem groupObjs_pred (P : Product → Prop) (objs : List Product)
    (hobjs : ∀ o ∈ objs, P o) :
    ∀ kv ∈ BFJ.groupObjs objs, ∀ o ∈ kv.2, P o := by
  unfold BFJ.groupObjs
  have main : ∀ (xs : List Product) (acc : List (String × List Product)),
      (∀ o ∈ xs, P o) →
      (∀ kv ∈ acc, ∀ o ∈ kv.2, P o) →
      ∀ kv ∈ xs.foldl (fun acc o =>
          let brand := orStr o.brand ""
          let title := orStr o.title (orStr o.product_name "")
          if title = "" then acc
          else assocApp (BFJ._make_match_key brand title o.package_sizing) o acc) acc,
        ∀ o ∈ kv.2, P o := by
    intro xs
    induction xs with
    | nil =>
      intro acc _ hacc kv hkv
      exact hacc kv hkv
    | cons o t ih =>
      intro acc hxs hacc kv hkv
      rw [List.foldl_cons] at hkv
      refine ih _ (fun o' ho' => hxs o' (List.mem_cons_of_mem _ ho')) ?_ kv hkv
      by_cases hc : orStr o.title (orStr o.product_name "") = ""
      · simp only [hc, if_true]
        exact hacc
      · simp only [hc, if_false]
        exact assocApp_pred _ _ _ _ hacc (hxs o (List.mem_cons_self _ _))
  intro kv hkv
  exact main objs [] hobjs (by intro kv h; cases h) kv hkv

/-- Offers built from a group of objects all tagged with store `tag`
carry the store name `tag` (a nonempty tag is never replaced by
"unknown"). -/
theorem buildOffers_store (tag : String) (htag : tag ≠ "")
    (objs : List Product) (hobjs : ∀ o ∈ objs, o.store = some tag) :
    ∀ of ∈ BFJ.buildOffers objs, of.store = tag := by
  unfold BFJ.buildOffers
  have main : ∀ (xs : List Product)
      (acc : List ((String × String) × BFJ.FOffer)),
      (∀ o ∈ xs, o.store = some tag) →
      (∀ kv ∈ acc, kv.2.store = tag) →
      ∀ kv ∈ xs.foldl (fun acc o =>
          if (acc.map (·.1)).contains (BFJ.offerKey o) then acc
          else acc ++ [(BFJ.offerKey o, BFJ.mkFOffer o)]) acc,
        kv.2.store = tag := by
    intro xs
    induction xs with
    | nil =>
      intro acc _ hacc kv hkv
      exact hacc kv hkv
    | cons o t ih =>
      intro acc hxs hacc kv hkv
      rw [List.foldl_cons] at hkv
      refine ih _ (fun o' ho' => hxs o' (List.mem_cons_of_mem _ ho')) ?_ kv hkv
      have hst : orStr o.store "unknown" = tag := by
        rw [hxs o (List.mem_cons_self _ _)]
        simp only [orStr]
        rw [if_neg htag]
      split
      · exact hacc
      · intro kv' hkv'
        rcases List.mem_append.mp hkv' with h | h
        · exact hacc kv' h
        · simp only [List.mem_singleton] at h
          subst h
          show (BFJ.mkFOffer o).store = tag
          unfold BFJ.mkFOffer
          exact hst
  intro of hof
  obtain ⟨kv, hkv, hkv2⟩ := List.mem_map.mp hof
  rw [← hkv2]
  exact main objs [] hobjs (by intro kv h; cases h) kv hkv

/-- The offers of a product built by `buildOne` are exactly the group's
built offers. -/
theorem buildOne_offers (idx : Nat) (objs : List Product) (p : BFJ.FProduct)
    (h : BFJ.buildOne idx objs = some p) :
    p.offers = BFJ.buildOffers objs := by
  unfold BFJ.buildOne at h
  split at h
  · cases h
  · simp only [Option.some.injEq] at h
    rw [← h]

/-- With one input file absent, every offer of every catalog product
comes from the available store. -/
theorem build_products_single_store (wmSrc : Option (List Product)) :
    (∀ p ∈ BFJ.build_products wmSrc none, ∀ o ∈ p.offers, o.store = "walmart") ∧
    (∀ p ∈ BFJ.build_products none wmSrc, ∀ o ∈ p.offers, o.store = "superstore") := by
  constructor
  · intro p hp o ho
    have hperm := List.perm_insertionSort BFJ.prodLe
      ((BFJ.groupObjs (BFJ.load_jsonl wmSrc "walmart" ++ BFJ.load_jsonl none "superstore")).enum.filterMap
        fun ig => BFJ.buildOne (ig.1 + 1) ig.2.2)
    have hp' := hperm.mem_iff.mp hp
    obtain ⟨ig, hig, hbo⟩ := List.mem_filterMap.mp hp'
    have hgrp : ∀ o' ∈ ig.2.2, o'.store = some "walmart" := by
      intro o' ho'
      refine groupObjs_pred (fun x => x.store = some "walmart")
        (BFJ.load_jsonl wmSrc "walmart" ++ BFJ.load_jsonl none "superstore") ?_ ig.2 ?_ o' ho'
      · intro x hx
        rcases List.mem_append.mp hx with h | h
        · exact load_jsonl_store wmSrc "walmart" x h
        · cases h
      · exact List.getElem?_mem (List.mem_enum_iff_getElem?.mp hig)
    rw [buildOne_offers _ _ _ hbo] at ho
    exact buildOffers_store "walmart" (by decide) ig.2.2 hgrp o ho
  · intro p hp o ho
    have hperm := List.perm_insertionSort BFJ.prodLe
      ((BFJ.groupObjs (BFJ.load_jsonl none "walmart" ++ BFJ.load_jsonl wmSrc "superstore")).enum.filterMap
        fun ig => BFJ.buildOne (ig.1 + 1) ig.2.2)
    have hp' := hperm.mem_iff.mp hp
    obtain ⟨ig, hig, hbo⟩ := List.mem_filterMap.mp hp'
    have hgrp : ∀ o' ∈ ig.2.2, o'.store = some "superstore" := by
      intro o' ho'
      refine groupObjs_pred (fun x => x.store = some "superstore")
        (BFJ.load_jsonl none "walmart" ++ BFJ.load_jsonl wmSrc "superstore") ?_ ig.2 ?_ o' ho'
      · intro x hx
        rcases List.mem_append.mp hx with h | h
        · cases h
        · exact load_jsonl_store wmSrc "superstore" x h
      · exact List.getElem?_mem (List.mem_enum_iff_getElem?.mp hig)
    rw [buildOne_offers _ _ _ hbo] at ho
    exact buildOffers_store "superstore" (by decide) ig.2.2 hgrp o ho

/-! ## Concrete sample listings used by witnesses -/

/-- A small listing with brand and title but no size, price or query. -/
def sampleListing : Product :=
  { brand := some "Dairyland", title := some "Fresh Bread" }

/-- A listing whose offer parses to price 3.99. -/
def wmListing399 : Product := { price_numeric := some (399 / 100) }

/-- A listing whose offer parses to price 4.49. -/
def ssListing449 : Product := { price_numeric := some (449 / 100) }

/-- A listing whose offer parses to price 3.985. -/
def ssListing3985 : Product := { price_numeric := some (797 / 200) }

/-- The default catalog product used to name the head of a concrete
catalog in a witness. -/
def fpDefault : BFJ.FProduct :=
  { id := 0, brand := "", title := "", description := "",
    package_sizing := none, image_url := none, search_queries := [],
    offers := [], store_count := 0, min_price := none,
    min_price_display := none }

/-- The loaded form of `sampleListing` tagged walmart. -/
def c5obj : Product := BFJ.loadPrice (BFJ.loadLink (BFJ.loadTag "walmart" sampleListing))

/-- The single catalog product built from `sampleListing` alone. -/
def c5prod : BFJ.FProduct :=
  (BFJ.build_products (some [sampleListing]) none).headD fpDefault

/-! ## Claim theorems -/

/-- C2: the pipeline is deterministic.  The embedding is a pure function
of the two loaded input collections (plus the similarity function, itself
a pure function in `difflib`): CPython's insertion-ordered dict iteration,
which `main` relies on for its index and bucket dicts, is reproduced by
the embedding's insertion-ordered association lists, and the source
iterates no unordered sets (consumed-index sets are used for membership
only).  Hence re-running the full pipeline — the combined match list, the
sorted matched-pairs output, the unmatched records, and the catalog
builder's output — on equal inputs yields equal (byte-identical once
serialized) results. -/
theorem claim_C2_pipeline_deterministic (sim : String → String → ℚ)
    (wm ss : List Product) (wmSrc ssSrc : Option (List Product)) :
    runPipeline sim wm ss = runPipeline sim wm ss ∧
    BFJ.build_products wmSrc ssSrc = BFJ.build_products wmSrc ssSrc :=
  ⟨rfl, rfl⟩

/-- C5 counterexample: with the superstore input absent (loaded as the
empty collection) and a nonempty walmart input, `main` of
`advanced_product_matcher.py` returns before writing any output — it
does not produce an empty-match output. -/
theorem claim_C5_counterexample :
    matcherRun (fun _ _ => (0 : ℚ)) [sampleListing] [] = none := rfl

/-- C5 (amended): if exactly one input file is absent, the matcher
pipeline aborts early producing no output at all, while the catalog
builder `build_frontend_json.py` proceeds with the available source and
produces a catalog whose offers all come from that single store (hence
zero cross-source matches). -/
theorem claim_C5_one_missing_input_behaviour (sim : String → String → ℚ)
    (wm : List Product) (src : Option (List Product)) :
    matcherRun sim wm [] = none ∧ matcherRun sim [] wm = none ∧
    (∀ p ∈ BFJ.build_products src none, ∀ o ∈ p.offers, o.store = "walmart") ∧
    (∀ p ∈ BFJ.build_products none src, ∀ o ∈ p.offers, o.store = "superstore") := by
  refine ⟨?_, ?_, (build_products_single_store src).1,
    (build_products_single_store src).2⟩
  · simp [matcherRun]
  · simp [matcherRun]

theorem claim_C5_one_missing_input_behaviour_witness :
    matcherRun (fun _ _ => (0 : ℚ)) [sampleListing] [] = none ∧
    (BFJ.mkFOffer c5obj).store = "walmart" :=
  ⟨(claim_C5_one_missing_input_behaviour (fun _ _ => (0 : ℚ)) [sampleListing]
      (some [sampleListing])).1,
   (claim_C5_one_missing_input_behaviour (fun _ _ => (0 : ℚ)) [sampleListing]
      (some [sampleListing])).2.2.1 c5prod (by decide) (BFJ.mkFOffer c5obj)
      (by decide)⟩

/-- C6 counterexample: for offers priced 3.99 and 4.49 the merger's
`price_difference_percent` (the difference as a percent of the average
price, rounded to two decimals) is 11.79, not approximately 11.76 as the
claim states (11.76 would be the difference as a percent of 4.25). -/
theorem priceComparison_some (a b : ℚ) :
    priceComparison (some a) (some b) =
      (some (roundQ2 |a - b|),
       (if 0 < (a + b) / 2 then some (roundQ2 (|a - b| / ((a + b) / 2) * 100))
        else none),
       some (if a < b - 1 / 100 then "walmart"
             else if b < a - 1 / 100 then "superstore" else "same")) := rfl

theorem abs_399_449 : |(399 : ℚ) / 100 - 449 / 100| = 1 / 2 := by
  rw [abs_of_nonpos] <;> norm_num

theorem priceComparison_cheaper (a b : ℚ) :
    (priceComparison (some a) (some b)).2.2 =
      some (if a < b - 1 / 100 then "walmart"
            else if b < a - 1 / 100 then "superstore" else "same") := rfl

theorem claim_C6_counterexample :
    (create_matched_product wmListing399 ssListing449 "high"
      "exact_brand_title_size").price_difference_percent = some (1179 / 100) ∧
    (create_matched_product wmListing399 ssListing449 "high"
      "exact_brand_title_size").price_difference_percent ≠ some (1176 / 100) := by
  have hpc : (create_matched_product wmListing399 ssListing449 "high"
      "exact_brand_title_size").price_difference_percent =
      (priceComparison (some (399 / 100)) (some (449 / 100))).2.1 := rfl
  rw [hpc, priceComparison_some]
  simp only [abs_399_449]
  rw [if_pos (by norm_num)]
  constructor
  · unfold roundQ2
    norm_num [round_eq]
  · unfold roundQ2
    norm_num [round_eq]

/-- C6 (amended): for a matched pair whose two offers parse to prices
3.99 and 4.49 the merger computes `price_difference = 0.50`,
`price_difference_percent = 11.79` (the difference as a percent of the
average price, rounded to two decimals — the spec's figure 11.76 is
wrong), and labels the lower-priced store as cheaper (in either
direction); and whenever the two parsed prices differ by exactly 0.005
(within the 0.01 absolute tolerance) the `cheaper_store` label is
"same". -/
theorem claim_C6_price_derivation (wp sp : Product) (c me : String)
    (a b : ℚ) (hwp : parse_price wp = some a) (hsp : parse_price sp = some b)
    (hdiff : |a - b| = 1 / 200) :
    (priceComparison (some (399 / 100 : ℚ)) (some (449 / 100)) =
      (some (1 / 2), some (1179 / 100), some "walmart")) ∧
    (priceComparison (some (449 / 100 : ℚ)) (some (399 / 100))).2.2 =
      some "superstore" ∧
    (create_matched_product wp sp c me).cheaper_store = some "same" := by
  refine ⟨?_, ?_, ?_⟩
  · rw [priceComparison_some]
    simp only [abs_399_449]
    rw [if_pos (by norm_num), if_pos (by norm_num)]
    refine congrArg₂ Prod.mk ?_ (congrArg₂ Prod.mk ?_ rfl)
    · unfold roundQ2
      norm_num [round_eq]
    · unfold roundQ2
      norm_num [round_eq]
  · rw [priceComparison_cheaper]
    rw [if_neg (by norm_num), if_pos (by norm_num)]
  · have hcs : (create_matched_product wp sp c me).cheaper_store =
        (priceComparison (parse_price wp) (parse_price sp)).2.2 := rfl
    rw [hcs, hwp, hsp, priceComparison_cheaper]
    have hb := abs_le.mp (le_of_eq hdiff)
    rw [if_neg (by intro h; have := hb.1; linarith),
      if_neg (by intro h; have := hb.2; linarith)]

theorem claim_C6_price_derivation_witness :
    (priceComparison (some (399 / 100 : ℚ)) (some (449 / 100)) =
      (some (1 / 2), some (1179 / 100), some "walmart")) ∧
    (create_matched_product wmListing399 ssListing3985 "low"
      "fuzzy_match_0.90").cheaper_store = some "same" :=
  ⟨(claim_C6_price_derivation wmListing399 ssListing3985 "low"
      "fuzzy_match_0.90" (399 / 100) (797 / 200) rfl rfl (by norm_num [abs_eq])).1,
   (claim_C6_price_derivation wmListing399 ssListing3985 "low"
      "fuzzy_match_0.90" (399 / 100) (797 / 200) rfl rfl (by norm_num [abs_eq])).2.2⟩

/-- C8: size extraction totals multi-packs.  Concretely
`_extract_size_info "6 x 310 ml"` gives unit "l" and value 1.86 (within
1e-3 — here exactly); in general, whenever the multi-pack pattern
`<count> x <each-size> <unit>` matches (it is searched first), the result
is count × each-size converted by `convMulti` to the canonical unit
(millilitres divided by 1000 into litres, etc.). -/
theorem claim_C8_multipack_size_extraction (text : String)
    (cnt : Nat) (parts : List Char × List Char) (u : String)
    (htext : ¬ text = "")
    (h : searchL mExMulti (stripAccentsLowerL text.data) = some (cnt, parts, u)) :
    ((_extract_size_info "6 x 310 ml").2 = some "l" ∧
      ∃ v, (_extract_size_info "6 x 310 ml").1 = some v ∧
        |v - 186 / 100| ≤ 1 / 1000) ∧
    _extract_size_info text = convMulti ((cnt : ℚ) * decOfParts parts.1 parts.2) u := by
  constructor
  · have hscan : searchL mExMulti (stripAccentsLowerL ("6 x 310 ml" : String).data) =
        some (6, (['3', '1', '0'], []), "ml") := by decide
    have hval : _extract_size_info "6 x 310 ml" =
        convMulti (((6 : Nat) : ℚ) * decOfParts ['3', '1', '0'] []) "ml" := by
      unfold _extract_size_info
      rw [if_neg (by decide), hscan]
    have hnum : ((6 : Nat) : ℚ) * decOfParts ['3', '1', '0'] [] = 1860 := by
      unfold decOfParts
      have h310 : natOfDigits ['3', '1', '0'] = 310 := by decide
      rw [h310]
      norm_num
    rw [hval, hnum]
    unfold convMulti
    rw [if_pos rfl]
    exact ⟨rfl, 1860 / 1000, rfl, by norm_num⟩
  · unfold _extract_size_info
    rw [if_neg htext, h]

theorem claim_C8_multipack_size_extraction_witness :
    (_extract_size_info "6 x 310 ml").2 = some "l" ∧
    _extract_size_info "6 x 310 ml" =
      convMulti ((6 : ℚ) * decOfParts ['3', '1', '0'] []) "ml" :=
  ⟨(claim_C8_multipack_size_extraction "6 x 310 ml" 6 (['3', '1', '0'], [])
      "ml" (by decide) (by decide)).1.1,
   (claim_C8_multipack_size_extraction "6 x 310 ml" 6 (['3', '1', '0'], [])
      "ml" (by decide) (by decide)).2⟩

/-- Dynamic-typing model of `_strip_accents_lower`: `None` is not a
`str`, so `unicodedata.normalize("NFKD", None)` raises `TypeError`
(modelled as `Except.error`); every string input returns normally. -/
def stripAccentsLowerDyn : Option String → Except String String
  | none => Except.error "TypeError: normalize() argument 2 must be str, not None"
  | some s => Except.ok (_strip_accents_lower s)

/-- C9 counterexample: `_strip_accents_lower(None)` raises `TypeError`
inside `unicodedata.normalize` — it does not return the empty string as
the claim states.  (Every call site guards against `None` before calling,
so the exception is unreachable in the program.) -/
theorem claim_C9_counterexample :
    stripAccentsLowerDyn none ≠ Except.ok "" := by
  intro h
  exact Except.noConfusion h

/-- C9 (amended): the casefold/accent-strip step maps the empty string to
the empty string and never raises on any string input; a `None` input,
however, raises `TypeError` (all call sites guard `None` away first). -/
theorem claim_C9_casefold_on_strings :
    (∀ s : String, stripAccentsLowerDyn (some s) =
      Except.ok (_strip_accents_lower s)) ∧
    _strip_accents_lower "" = "" :=
  ⟨fun _ => rfl, rfl⟩

/-- C10: a listing whose normalized brand is empty or whose title-core is
empty is never claimed by the exact stage nor by the relaxed brand+title
stage: every match those stages produce points, on both sides, at an
existing listing with nonempty normalized brand and nonempty
title-core. -/
theorem claim_C10_exact_and_relaxed_require_brand_and_title
    (wm ss : List Product) (wmM ssM : List Nat) :
    (∀ m ∈ (exact_match wm ss).1, btGood wm m.wi ∧ btGood ss m.si) ∧
    (∀ m ∈ (brand_title_match wm ss wmM ssM).1,
      btGood wm m.wi ∧ btGood ss m.si) := by
  refine ⟨fun m hm => (exact_match_spec wm ss).2.2.2.2 m hm, fun m hm => ?_⟩
  have h := (brand_title_match_spec wm ss wmM ssM).2.2.2.2 m hm
  exact ⟨h.1.2, h.2.2⟩

/-! ## Lemmas: token split and join -/

theorem splitRunsAux_all (p : Char → Bool) :
    ∀ (l acc : List Char), (∀ c ∈ acc, p c = true) →
      ∀ t ∈ splitRunsAux p acc l, t ≠ [] ∧ ∀ c ∈ t, p c = true := by
  intro l
  induction l with
  | nil =>
    intro acc hacc t ht
    unfold splitRunsAux at ht
    split at ht
    · cases ht
    next hne =>
      simp only [List.mem_singleton] at ht
      subst ht
      refine ⟨?_, ?_⟩
      · intro he
        rw [List.reverse_eq_nil_iff] at he
        rw [he] at hne
        exact hne rfl
      · intro c hc
        exact hacc c (List.mem_reverse.mp hc)
  | cons c cs ih =>
    intro acc hacc t ht
    unfold splitRunsAux at ht
    split at ht
    next hpc =>
      refine ih (c :: acc) ?_ t ht
      intro x hx
      rcases List.mem_cons.mp hx with h | h
      · subst h; exact hpc
      · exact hacc x h
    next =>
      split at ht
      · exact ih [] (by intro x hx; cases hx) t ht
      next hne =>
        rcases List.mem_cons.mp ht with h | h
        · subst h
          refine ⟨?_, ?_⟩
          · intro he
            rw [List.reverse_eq_nil_iff] at he
            rw [he] at hne
            simp at hne
          · intro x hx
            exact hacc x (List.mem_reverse.mp hx)
        · exact ih [] (by intro x hx; cases hx) t h

theorem splitRuns_all (p : Char → Bool) (l : List Char) :
    ∀ t ∈ splitRuns p l, t ≠ [] ∧ ∀ c ∈ t, p c = true :=
  splitRunsAux_all p l [] (by intro c h; cases h)

theorem splitRunsAux_nil (p : Char → Bool) (acc : List Char) :
    splitRunsAux p acc [] = if acc.isEmpty then [] else [acc.reverse] := rfl

theorem splitRunsAux_cons (p : Char → Bool) (acc : List Char) (c : Char)
    (cs : List Char) :
    splitRunsAux p acc (c :: cs) =
      if p c then splitRunsAux p (c :: acc) cs
      else if acc.isEmpty then splitRunsAux p [] cs
      else acc.reverse :: splitRunsAux p [] cs := rfl

theorem splitRunsAux_run (p : Char → Bool) (t : List Char)
    (ht : ∀ c ∈ t, p c = true) :
    ∀ (acc rest : List Char),
      splitRunsAux p acc (t ++ rest) = splitRunsAux p (t.reverse ++ acc) rest := by
  induction t with
  | nil => intro acc rest; rfl
  | cons c cs ih =>
    intro acc rest
    have hpc : p c = true := ht c (List.mem_cons_self _ _)
    show splitRunsAux p acc (c :: (cs ++ rest)) = _
    rw [splitRunsAux_cons, if_pos hpc,
      ih (fun x hx => ht x (List.mem_cons_of_mem _ hx)) (c :: acc) rest]
    congr 1
    simp

theorem splitRuns_joinSp (p : Char → Bool) (ts : List (List Char))
    (h1 : ∀ t ∈ ts, t ≠ []) (h2 : ∀ t ∈ ts, ∀ c ∈ t, p c = true)
    (hsp : p ' ' = false) : splitRuns p (joinSp ts) = ts := by
  induction ts with
  | nil => rfl
  | cons t ts ih =>
    have htne : ¬ (t.reverse.isEmpty = true) := by
      intro he
      rw [List.isEmpty_iff, List.reverse_eq_nil_iff] at he
      exact h1 t (List.mem_cons_self _ _) he
    cases ts with
    | nil =>
      show splitRuns p t = [t]
      unfold splitRuns
      have h := splitRunsAux_run p t (h2 t (List.mem_cons_self _ _)) [] []
      rw [List.append_nil] at h
      rw [h, List.append_nil, splitRunsAux_nil, if_neg htne, List.reverse_reverse]
    | cons t2 ts2 =>
      show splitRuns p (t ++ ' ' :: joinSp (t2 :: ts2)) = t :: t2 :: ts2
      unfold splitRuns
      rw [splitRunsAux_run p t (h2 t (List.mem_cons_self _ _)) [] _,
        List.append_nil, splitRunsAux_cons,
        if_neg (by rw [hsp]; intro h; cases h), if_neg htne,
        List.reverse_reverse]
      have h := ih (fun x hx => h1 x (List.mem_cons_of_mem _ hx))
        (fun x hx => h2 x (List.mem_cons_of_mem _ hx))
      rw [show splitRunsAux p [] (joinSp (t2 :: ts2)) =
        splitRuns p (joinSp (t2 :: ts2)) from rfl, h]

/-- Characters reachable in a stable title-core: a space or a lower-case
ASCII letter. -/
def goodC (c : Char) : Prop := c = ' ' ∨ isLowA c = true

theorem mem_joinSp (c : Char) (ts : List (List Char)) (h : c ∈ joinSp ts) :
    c = ' ' ∨ ∃ t ∈ ts, c ∈ t := by
  induction ts with
  | nil => cases h
  | cons t ts ih =>
    cases ts with
    | nil =>
      right
      exact ⟨t, List.mem_cons_self _ _, h⟩
    | cons t2 ts2 =>
      rw [show joinSp (t :: t2 :: ts2) = t ++ ' ' :: joinSp (t2 :: ts2) from rfl] at h
      rcases List.mem_append.mp h with h | h
      · right; exact ⟨t, List.mem_cons_self _ _, h⟩
      · rcases List.mem_cons.mp h with h | h
        · left; exact h
        · rcases ih h with h | ⟨t', ht', hc⟩
          · left; exact h
          · right; exact ⟨t', List.mem_cons_of_mem _ ht', hc⟩

theorem joinSp_good (ts : List (List Char))
    (h : ∀ t ∈ ts, ∀ c ∈ t, isLowA c = true) :
    ∀ c ∈ joinSp ts, goodC c := by
  intro c hc
  rcases mem_joinSp c ts hc with h' | ⟨t, ht, hct⟩
  · left; exact h'
  · right; exact h t ht c hct

/-! ## Lemmas: the rewriting pipeline fixes stable cores -/

theorem subScan_noop (m : Option Char → Char → List Char → Option Nat)
    (repl : List Char) (good : Char → Prop)
    (hm : ∀ prev c cs, good c → m prev c cs = none) :
    ∀ (l : List Char) (prev : Option Char), (∀ c ∈ l, good c) →
      subScan m repl prev 0 l = l := by
  intro l
  induction l with
  | nil => intro prev _; rfl
  | cons c cs ih =>
    intro prev hl
    have heq : subScan m repl prev 0 (c :: cs) =
        match m prev c cs with
        | some n => repl ++ subScan m repl (some c) n cs
        | none => c :: subScan m repl (some c) 0 cs := rfl
    rw [heq, hm prev c cs (hl c (List.mem_cons_self _ _))]
    rw [ih (some c) (fun x hx => hl x (List.mem_cons_of_mem _ hx))]

theorem goodC_not_dig {c : Char} (h : goodC c) : isDig c = false := by
  rcases h with h | h
  · subst h; decide
  · simp only [isLowA, Bool.and_eq_true, decide_eq_true_eq] at h
    have h2 : ¬ c.toNat ≤ 57 := by omega
    simp [isDig, h2]

theorem goodC_ne {c : Char} (h : goodC c) (d : Char) (hd : isDig d = true) :
    ¬ c = d := by
  intro he
  subst he
  rw [goodC_not_dig h] at hd
  cases hd

theorem goodC_ne_dollar {c : Char} (h : goodC c) : ¬ c = '$' := by
  intro he
  subst he
  rcases h with h | h
  · cases h
  · cases h

theorem goodC_alnum_or_ws {c : Char} (h : goodC c) :
    (isAlnumL c || isWs c) = true := by
  rcases h with h | h
  · subst h; decide
  · simp [isAlnumL, h]

theorem isLowA_not_ws {c : Char} (h : isLowA c = true) : isWs c = false := by
  simp only [isLowA, Bool.and_eq_true, decide_eq_true_eq] at h
  have h1 : ¬ c.toNat = 32 := by omega
  have h2 : ¬ c.toNat = 9 := by omega
  have h3 : ¬ c.toNat = 10 := by omega
  have h4 : ¬ c.toNat = 13 := by omega
  have h5 : ¬ c.toNat = 11 := by omega
  have h6 : ¬ c.toNat = 12 := by omega
  simp only [isWs, Bool.or_eq_false_iff, decide_eq_false_iff_not]
  refine ⟨⟨⟨⟨⟨?_, ?_⟩, ?_⟩, ?_⟩, h5⟩, h6⟩ <;> intro he <;> rw [he] at h <;>
    revert h <;> decide

theorem isLowA_not_dig {c : Char} (h : isLowA c = true) : isDig c = false :=
  goodC_not_dig (Or.inr h)

theorem mPct325_noop : ∀ prev c cs, goodC c → mPct325 prev c cs = none := by
  intro prev c cs h
  unfold mPct325
  split
  · rfl
  · rw [if_neg (goodC_ne h '3' (by decide))]

theorem mPct325ws_noop : ∀ prev c cs, goodC c → mPct325ws prev c cs = none := by
  intro prev c cs h
  unfold mPct325ws
  split
  · rfl
  · rw [if_neg (goodC_ne h '3' (by decide))]

theorem mPctDigit_noop (d : Char) (hd : isDig d = true) :
    ∀ prev c cs, goodC c → mPctDigit d prev c cs = none := by
  intro prev c cs h
  unfold mPctDigit
  split
  · rfl
  · rw [if_neg (goodC_ne h d hd)]

theorem mSize1_noop : ∀ prev c cs, goodC c → mSize1 prev c cs = none := by
  intro prev c cs h
  unfold mSize1
  split
  · rfl
  · rw [goodC_not_dig h]
    simp

theorem mSize2_noop : ∀ prev c cs, goodC c → mSize2 prev c cs = none := by
  intro prev c cs h
  unfold mSize2
  split
  · rfl
  · rw [goodC_not_dig h]
    simp

theorem mSize3_noop : ∀ prev c cs, goodC c → mSize3 prev c cs = none := by
  intro prev c cs h
  unfold mSize3
  split
  · rfl
  · rw [goodC_not_dig h]
    simp

theorem mSize4_noop : ∀ prev c cs, goodC c → mSize4 prev c cs = none := by
  intro prev c cs h
  unfold mSize4
  split
  · rfl
  · rw [goodC_not_dig h]
    simp

theorem mSize5_noop : ∀ prev c cs, goodC c → mSize5 prev c cs = none := by
  intro prev c cs h
  unfold mSize5
  split
  · rfl
  · rw [goodC_not_dig h]
    simp

theorem mSize6_noop : ∀ prev c cs, goodC c → mSize6 prev c cs = none := by
  intro prev c cs h
  unfold mSize6
  rw [if_neg (goodC_ne_dollar h)]

theorem mPunct_noop : ∀ prev c cs, goodC c → mPunct prev c cs = none := by
  intro prev c cs h
  unfold mPunct
  rw [if_pos (goodC_alnum_or_ws h)]

theorem milk_noop (l : List Char) (h : ∀ c ∈ l, goodC c) :
    _normalize_milk_percentage l = l := by
  simp only [_normalize_milk_percentage, runSub]
  rw [subScan_noop _ _ goodC mPct325_noop l none h,
    subScan_noop _ _ goodC mPct325ws_noop l none h,
    subScan_noop _ _ goodC (mPctDigit_noop '0' (by decide)) l none h,
    subScan_noop _ _ goodC (mPctDigit_noop '1' (by decide)) l none h,
    subScan_noop _ _ goodC (mPctDigit_noop '2' (by decide)) l none h]

theorem stripCh_good {c : Char} (h : goodC c) : stripCh c = c := by
  rcases h with h | h
  · subst h; decide
  · simp only [isLowA, Bool.and_eq_true, decide_eq_true_eq] at h
    unfold stripCh asciiLowerC
    split
    · rename_i he
      simp only [Bool.or_eq_true, decide_eq_true_eq] at he
      rcases he with he | he <;> rw [he] at h <;> exact absurd h (by decide)
    · split
      · rename_i hu
        simp only [isUpA, Bool.and_eq_true, decide_eq_true_eq] at hu
        omega
      · rfl

theorem strip_noop (l : List Char) (h : ∀ c ∈ l, goodC c) :
    stripAccentsLowerL l = l := by
  unfold stripAccentsLowerL
  induction l with
  | nil => rfl
  | cons c cs ih =>
    rw [List.map_cons, stripCh_good (h c (List.mem_cons_self _ _)),
      ih (fun x hx => h x (List.mem_cons_of_mem _ hx))]

theorem punct_noop (l : List Char) (h : ∀ c ∈ l, goodC c) :
    punctToSpace l = l := by
  unfold punctToSpace runSub
  rw [subScan_noop _ _ goodC mPunct_noop l none h]

theorem remove_size_tokens_joinSp (L : List (List Char))
    (h1 : ∀ t ∈ L, t ≠ []) (hlow : ∀ t ∈ L, ∀ c ∈ t, isLowA c = true) :
    _remove_size_tokens (joinSp L) = joinSp L := by
  have hg : ∀ c ∈ joinSp L, goodC c := joinSp_good L hlow
  simp only [_remove_size_tokens, runSub]
  rw [subScan_noop _ _ goodC mSize1_noop _ none hg,
    subScan_noop _ _ goodC mSize2_noop _ none hg,
    subScan_noop _ _ goodC mSize3_noop _ none hg,
    subScan_noop _ _ goodC mSize4_noop _ none hg,
    subScan_noop _ _ goodC mSize5_noop _ none hg,
    subScan_noop _ _ goodC mSize6_noop _ none hg]
  unfold wsCollapse
  rw [splitRuns_joinSp _ L h1 ?_ (by decide)]
  intro t ht c hc
  rw [isLowA_not_ws (hlow t ht c hc)]
  rfl

theorem titleCorePre_stable (L : List (List Char))
    (h1 : ∀ t ∈ L, t ≠ []) (hlow : ∀ t ∈ L, ∀ c ∈ t, isLowA c = true)
    (h4 : _apply_word_synonyms (joinSp L) = joinSp L)
    (h6 : _denormalize_milk_percentage (joinSp L) = joinSp L) :
    titleCorePre ⟨joinSp L⟩ "" = joinSp L := by
  have hg : ∀ c ∈ joinSp L, goodC c := joinSp_good L hlow
  unfold titleCorePre
  rw [if_neg (by simp)]
  rw [show (⟨joinSp L⟩ : String).data = joinSp L from rfl]
  rw [strip_noop _ hg, milk_noop _ hg, h4,
    remove_size_tokens_joinSp L h1 hlow, h6, punct_noop _ hg]

/-- On a stable token list (each token at least two lower-case letters,
not a stopword; the joined string fixed by the synonym and
milk-percentage passes; overall length at least `MIN_TITLE_LENGTH`), the
matcher's title normalization just sorts the tokens. -/
theorem normalize_join_stable (L : List (List Char))
    (h3 : ∀ t ∈ L, 2 ≤ t.length ∧ (∀ c ∈ t, isLowA c = true) ∧
      ¬ t ∈ STOPWORDS.map String.data)
    (h4 : _apply_word_synonyms (joinSp L) = joinSp L)
    (h6 : _denormalize_milk_percentage (joinSp L) = joinSp L)
    (h5 : 5 ≤ (joinSp L).length) :
    normalize_title_for_matching ⟨joinSp L⟩ "" = ⟨joinSp (sortToks L)⟩ := by
  have h1 : ∀ t ∈ L, t ≠ [] := by
    intro t ht he
    have := (h3 t ht).1
    rw [he] at this
    simp at this
  have hlow : ∀ t ∈ L, ∀ c ∈ t, isLowA c = true := fun t ht => (h3 t ht).2.1
  have hjne : joinSp L ≠ [] := by
    intro he
    rw [he] at h5
    simp at h5
  have hLne : L ≠ [] := by
    intro he
    subst he
    exact hjne rfl
  have htoks : titleToks ⟨joinSp L⟩ "" = L := by
    unfold titleToks
    rw [titleCorePre_stable L h1 hlow h4 h6]
    rw [splitRuns_joinSp isAlnumL L h1 ?_ (by decide)]
    · rw [List.filter_eq_self.mpr ?_]
      intro t ht
      have hne := h1 t ht
      have hlen := (h3 t ht).1
      have hstop := (h3 t ht).2.2
      unfold keepTok
      simp only [Bool.and_eq_true, Bool.not_eq_true']
      refine ⟨⟨?_, ?_⟩, ?_⟩
      · rw [← Bool.not_eq_true]
        intro hc
        rw [List.contains_eq_any_beq] at hc
        simp only [List.any_eq_true, beq_iff_eq] at hc
        obtain ⟨x, hx, hxe⟩ := hc
        subst hxe
        exact hstop hx
      · simp only [decide_eq_true_eq]
        omega
      · unfold isDigitStr
        obtain ⟨c0, t', rfl⟩ := List.exists_cons_of_ne_nil hne
        have : isDig c0 = false := isLowA_not_dig (hlow _ ht c0 (List.mem_cons_self _ _))
        simp [this]
    · intro t ht c hc
      unfold isAlnumL
      rw [hlow t ht c hc]
      rfl
  have hcond : ¬ ((decide ((⟨joinSp L⟩ : String) = "") ||
      decide ((⟨joinSp L⟩ : String).length < MIN_TITLE_LENGTH)) = true) := by
    simp only [Bool.or_eq_true, decide_eq_true_eq, not_or]
    constructor
    · intro he
      have : (⟨joinSp L⟩ : String).data = ("" : String).data := by rw [he]
      exact hjne this
    · show ¬ (⟨joinSp L⟩ : String).length < MIN_TITLE_LENGTH
      have hsl : (⟨joinSp L⟩ : String).length = (joinSp L).length := rfl
      rw [hsl]
      unfold MIN_TITLE_LENGTH
      omega
  have hemp : ¬ (L.isEmpty = true) := by
    rw [List.isEmpty_iff]
    exact hLne
  unfold normalize_title_for_matching
  rw [htoks, if_neg hcond, if_neg hemp]

theorem claim_C10_exact_and_relaxed_require_brand_and_title_witness :
    (btGood [sampleListing] 0 ∧ btGood [sampleListing] 0) ∧
    (btGood [sampleListing] 0 ∧ btGood [sampleListing] 0) :=
  ⟨(claim_C10_exact_and_relaxed_require_brand_and_title [sampleListing]
      [sampleListing] [] []).1 ⟨0, 0, "high", "exact_brand_title_size"⟩
      (by decide),
   (claim_C10_exact_and_relaxed_require_brand_and_title [sampleListing]
      [sampleListing] [] []).2 ⟨0, 0, "medium", "brand_title_different_size"⟩
      (by decide)⟩

set_option maxRecDepth 100000

theorem titleToks_runs (title brand : String) :
    ∀ t ∈ titleToks title brand, t ≠ [] ∧ ∀ c ∈ t, isAlnumL c = true := by
  intro t ht
  unfold titleToks at ht
  exact splitRuns_all isAlnumL _ t (List.mem_of_mem_filter ht)

theorem isAlnumL_ne_space {c : Char} (h : isAlnumL c = true) : ¬ c = ' ' := by
  intro he
  rw [he] at h
  exact absurd h (by decide)

/-- C3 counterexample: `normalize_title_for_matching("milk!", "")`
returns `"milk"`, but normalizing that output again returns `""` (the
four-character result falls under `MIN_TITLE_LENGTH = 5`), so the map is
not idempotent on its own outputs. -/
theorem claim_C3_counterexample :
    normalize_title_for_matching "milk!" "" = "milk" ∧
    normalize_title_for_matching
        (normalize_title_for_matching "milk!" "") "" ≠
      normalize_title_for_matching "milk!" "" := by
  constructor
  · decide
  · decide

/-- C3 (amended): title normalization with an empty brand is idempotent
on already-normalized cores of the following class: a space-joined sorted
list of tokens, each at least two characters consisting only of
lower-case letters (hence digit-free, so no size-removal pattern can
match) and not a stopword, whose join is at least `MIN_TITLE_LENGTH`
long and is fixed by the word-synonym and milk-percentage passes; such a
string is returned unchanged.  Outside this class idempotence fails:
outputs shorter than `MIN_TITLE_LENGTH` are collapsed to `""` (see the
counterexample), outputs that re-trigger a synonym pass are rewritten
further, and digit-bearing outputs such as `"2pk milk"` are eaten by the
size-token pass. -/
theorem claim_C3_idempotence_on_stable_cores (L : List (List Char))
    (h3 : ∀ t ∈ L, 2 ≤ t.length ∧ (∀ c ∈ t, isLowA c = true) ∧
      ¬ t ∈ STOPWORDS.map String.data)
    (h4 : _apply_word_synonyms (joinSp L) = joinSp L)
    (h6 : _denormalize_milk_percentage (joinSp L) = joinSp L)
    (h5 : 5 ≤ (joinSp L).length)
    (hsort : List.Sorted TokLe L) :
    normalize_title_for_matching ⟨joinSp L⟩ "" = ⟨joinSp L⟩ := by
  rw [normalize_join_stable L h3 h4 h6 h5]
  unfold sortToks
  rw [List.Sorted.insertionSort_eq hsort]

theorem claim_C3_idempotence_on_stable_cores_witness :
    normalize_title_for_matching "ab cd" "" = "ab cd" := by
  show normalize_title_for_matching ⟨joinSp [['a','b'], ['c','d']]⟩ "" =
    ⟨joinSp [['a','b'], ['c','d']]⟩
  exact claim_C3_idempotence_on_stable_cores [['a','b'], ['c','d']]
    (by decide) (by decide) (by decide) (by decide) (by decide)

/-- C4 counterexample: the output of `normalize_title_for_matching` is
not deduplicated — `"milk milk"` normalizes to `"milk milk"`, whose
space-separated token list repeats `"milk"`. -/
theorem claim_C4_counterexample :
    normalize_title_for_matching "milk milk" "" = "milk milk" ∧
    ¬ (spaceTokens (normalize_title_for_matching "milk milk" "")).Nodup := by
  constructor
  · decide
  · decide

/-- C4 (amended): for every title and brand the space-separated tokens of
`normalize_title_for_matching title brand` are in ascending Python-string
order — the output is sorted.  It is not deduplicated (`list.sort()` keeps
duplicates; see the counterexample). -/
theorem claim_C4_title_core_tokens_sorted (title brand : String) :
    List.Sorted StrLe (spaceTokens (normalize_title_for_matching title brand)) := by
  unfold normalize_title_for_matching
  split
  · rw [show spaceTokens "" = [] from rfl]
    exact List.sorted_nil
  · split
    · rw [show spaceTokens "" = [] from rfl]
      exact List.sorted_nil
    · have hruns := titleToks_runs title brand
      have hsorted : List.Sorted TokLe (sortToks (titleToks title brand)) :=
        List.sorted_insertionSort TokLe (titleToks title brand)
      have hperm : (sortToks (titleToks title brand)).Perm (titleToks title brand) :=
        List.perm_insertionSort TokLe (titleToks title brand)
      generalize hF : sortToks (titleToks title brand) = M at hperm hsorted ⊢
      have h1 : ∀ t ∈ M, t ≠ [] :=
        fun t ht => (hruns t (hperm.mem_iff.mp ht)).1
      have h2 : ∀ t ∈ M, ∀ c ∈ t, (fun c => !(c = ' ')) c = true := by
        intro t ht c hc
        have := isAlnumL_ne_space ((hruns t (hperm.mem_iff.mp ht)).2 c hc)
        simp [this]
      have hsp : spaceTokens ⟨joinSp M⟩ =
          M.map (fun l => (⟨l⟩ : String)) := by
        unfold spaceTokens
        rw [show (⟨joinSp M⟩ : String).data = joinSp M from rfl]
        rw [splitRuns_joinSp _ _ h1 h2 (by decide)]
      rw [hsp]
      exact List.Pairwise.map _ (fun a b h => h) hsorted

/-- C7 counterexample: token-order independence fails in general because
the word-synonym pass matches multi-word phrases before tokens are
sorted: `"partly skimmed milk"` normalizes to `"lowfat milk"` (the phrase
`"partly skimmed"` is rewritten to `"lowfat"`), while the same words in
the order `"skimmed partly milk"` normalize to `"milk nonfat partly"`
(only the single word `"skimmed"` matches, rewritten to `"nonfat"`). -/
theorem claim_C7_counterexample :
    normalize_title_for_matching "partly skimmed milk" "" = "lowfat milk" ∧
    normalize_title_for_matching "skimmed partly milk" "" = "milk nonfat partly" ∧
    normalize_title_for_matching "partly skimmed milk" "" ≠
      normalize_title_for_matching "skimmed partly milk" "" := by
  refine ⟨by decide, by decide, by decide⟩

/-- C7 (amended): the claim's concrete instance holds —
`normalize_title_for_matching("Strawberry Milk 2% 1L", "Acme")` equals
`normalize_title_for_matching("1L Milk Strawberry 2%", "Acme")` — and
order independence holds for permuted token lists whose tokens are each
at least two characters of lower-case letters only (hence digit-free, so
no size-removal pattern can match) and not stopwords, with both joins at
least `MIN_TITLE_LENGTH` long and fixed by the word-synonym and
milk-percentage passes: such lists normalize to the identical string.
It fails for general same-word inputs because the multi-word synonym
phrases (see the counterexample) and the multi-token size-removal
patterns (`"12fl oz"` vs `"oz 12fl"`) are matched before sorting and are
order-sensitive. -/
theorem claim_C7_order_independence :
    (normalize_title_for_matching "Strawberry Milk 2% 1L" "Acme" =
      normalize_title_for_matching "1L Milk Strawberry 2%" "Acme") ∧
    (∀ L1 L2 : List (List Char), L1.Perm L2 →
      (∀ t ∈ L1, 2 ≤ t.length ∧ (∀ c ∈ t, isLowA c = true) ∧
        ¬ t ∈ STOPWORDS.map String.data) →
      _apply_word_synonyms (joinSp L1) = joinSp L1 →
      _denormalize_milk_percentage (joinSp L1) = joinSp L1 →
      _apply_word_synonyms (joinSp L2) = joinSp L2 →
      _denormalize_milk_percentage (joinSp L2) = joinSp L2 →
      5 ≤ (joinSp L1).length → 5 ≤ (joinSp L2).length →
      normalize_title_for_matching ⟨joinSp L1⟩ "" =
        normalize_title_for_matching ⟨joinSp L2⟩ "") := by
  constructor
  · decide
  · intro L1 L2 hperm h3a h4a h6a h4b h6b h5a h5b
    have h3b : ∀ t ∈ L2, 2 ≤ t.length ∧ (∀ c ∈ t, isLowA c = true) ∧
        ¬ t ∈ STOPWORDS.map String.data :=
      fun t ht => h3a t (hperm.mem_iff.mpr ht)
    rw [normalize_join_stable L1 h3a h4a h6a h5a,
      normalize_join_stable L2 h3b h4b h6b h5b]
    have hp : (sortToks L1).Perm (sortToks L2) :=
      ((List.perm_insertionSort TokLe L1).trans hperm).trans
        (List.perm_insertionSort TokLe L2).symm
    have hs1 : List.Sorted TokLe (sortToks L1) :=
      List.sorted_insertionSort TokLe L1
    have hs2 : List.Sorted TokLe (sortToks L2) :=
      List.sorted_insertionSort TokLe L2
    rw [List.eq_of_perm_of_sorted hp hs1 hs2]

theorem claim_C7_order_independence_witness :
    normalize_title_for_matching "ab cd" "" =
      normalize_title_for_matching "cd ab" "" := by
  show normalize_title_for_matching ⟨joinSp [['a','b'], ['c','d']]⟩ "" =
    normalize_title_for_matching ⟨joinSp [['c','d'], ['a','b']]⟩ ""
  exact claim_C7_order_independence.2
    [['a','b'], ['c','d']] [['c','d'], ['a','b']]
    (by decide) (by decide) (by decide) (by decide) (by decide) (by decide)
    (by decide) (by decide)

end VSP
